import Mathlib

/-!
Verification of the ksim repository: a shallow embedding in Lean 4 of
(a) the reward-function dispatch of
    `ksim/mjx_gym/envs/default_humanoid_env/rewards.py`, and
(b) the MJCF tree-surgery of `ksim/scripts/process_mjcf.py`,
together with theorems settling the specification claims.

Numeric values (jax scalars, Python floats) are modelled as rationals ℚ;
the claims under study are structural (summation shape, dictionary keys,
branch conditions) and do not depend on floating-point rounding.
Array indexing such as `state.q[2]` is modelled with `List.getD _ _ 0`,
i.e. indices are assumed in range, as they are for every mjx state.
-/

namespace KSim

/-- Python exceptions raised by the modelled code: only KeyError occurs. -/
inductive PyErr where
  | keyError (k : String)
deriving DecidableEq, Repr

/-- The parts of `brax.mjx.base.State` read by the reward functions:
`q` (generalized coordinates) and `subtree_com` (per-subtree centers of
mass, a list of coordinate triples). -/
structure MjxState where
  q : List ℚ
  subtree_com : List (List ℚ)
deriving DecidableEq, Repr

/-- The `RewardDict` TypedDict of rewards.py: `weight` is required,
the two healthy bounds are optional keys. -/
structure RewardDict where
  weight : ℚ
  healthy_z_lower : Option ℚ
  healthy_z_upper : Option ℚ
deriving DecidableEq, Repr

/-- Reward parameters: a Python dict `str -> RewardDict`, modelled as an
association list in insertion order. -/
abbrev RewardParams := List (String × RewardDict)

/-- The common signature of the individual reward functions
(state, action, next_state, dt, params); a Python function may raise
(KeyError on a missing dict key), hence `Except`. -/
abbrev RewardFunction :=
  MjxState → List ℚ → MjxState → ℚ → RewardDict → Except PyErr (ℚ × ℚ)

/-- rewards.py `forward_reward_fn`: velocity of subtree_com[1][0] times
the weight; second component is the constant 1.0. -/
def forward_reward_fn : RewardFunction := fun state _action next_state dt params =>
  let xpos := (state.subtree_com.getD 1 []).getD 0 0
  let next_xpos := (next_state.subtree_com.getD 1 []).getD 0 0
  let velocity := (next_xpos - xpos) / dt
  .ok (params.weight * velocity, 1)

/-- rewards.py `healthy_reward_fn`: reads the optional keys
`healthy_z_lower` / `healthy_z_upper` (KeyError when absent), then
`is_healthy = where(q[2] < min_z, 0, 1)` refined by
`where(q[2] > max_z, 0, is_healthy)`, and the reward is
`weight * is_healthy`. -/
def healthy_reward_fn : RewardFunction := fun state _action _next_state _dt params =>
  match params.healthy_z_lower with
  | none => .error (.keyError "healthy_z_lower")
  | some min_z =>
    match params.healthy_z_upper with
    | none => .error (.keyError "healthy_z_upper")
    | some max_z =>
      let q2 := state.q.getD 2 0
      let is_healthy : ℚ := if q2 < min_z then 0 else 1
      let is_healthy : ℚ := if q2 > max_z then 0 else is_healthy
      .ok (params.weight * is_healthy, is_healthy)

/-- rewards.py `ctrl_cost_reward_fn`: `-weight * sum(action^2)`; second
component is the constant 1.0. -/
def ctrl_cost_reward_fn : RewardFunction := fun _state action _next_state _dt params =>
  .ok (-params.weight * (action.map (fun x => x * x)).sum, 1)

/-- The `reward_functions` registry of rewards.py, in source order. -/
def reward_functions : List (String × RewardFunction) :=
  [("rew_forward", forward_reward_fn),
   ("rew_healthy", healthy_reward_fn),
   ("rew_ctrl_cost", ctrl_cost_reward_fn)]

/-- The body of one iteration of the loop in `reward_fn`:
`reward_functions[key](state, action, next_state, dt, params)`, with the
KeyError that Python raises when `key` is not in the registry. -/
def dispatch (key : String) (params : RewardDict) (state : MjxState)
    (action : List ℚ) (next_state : MjxState) (dt : ℚ) : Except PyErr (ℚ × ℚ) :=
  match reward_functions.lookup key with
  | none => .error (.keyError key)
  | some f => f state action next_state dt params

/-- The loop of `reward_fn` in `get_reward_fn`: accumulates
`reward += r`, `is_healthy *= h`, `rewards[key] = r` (the last only when
`include_reward_breakdown`), stopping at the first raised exception. -/
def rewardLoop (dt : ℚ) (include_reward_breakdown : Bool)
    (state : MjxState) (action : List ℚ) (next_state : MjxState) :
    RewardParams → ℚ → ℚ → List (String × ℚ) →
    Except PyErr (ℚ × ℚ × List (String × ℚ))
  | [], reward, is_healthy, rewards => .ok (reward, is_healthy, rewards)
  | (key, params) :: rest, reward, is_healthy, rewards =>
    match dispatch key params state action next_state dt with
    | .error e => .error e
    | .ok (r, h) =>
      rewardLoop dt include_reward_breakdown state action next_state rest
        (reward + r) (is_healthy * h)
        (if include_reward_breakdown then rewards ++ [(key, r)] else rewards)

/-- rewards.py `get_reward_fn`: returns the combined `reward_fn`.
Initial accumulators are `reward = 0.0`, `is_healthy = 1.0`,
`rewards = {}`. -/
def get_reward_fn (reward_params : RewardParams) (dt : ℚ)
    (include_reward_breakdown : Bool) :
    MjxState → List ℚ → MjxState → Except PyErr (ℚ × ℚ × List (String × ℚ)) :=
  fun state action next_state =>
    rewardLoop dt include_reward_breakdown state action next_state
      reward_params 0 1 []

/-- The first component of a dispatched reward, defaulting to 0 on an
exception; used to state summation claims. -/
def dispatchFst (state : MjxState) (action : List ℚ) (next_state : MjxState)
    (dt : ℚ) (kp : String × RewardDict) : ℚ :=
  match dispatch kp.1 kp.2 state action next_state dt with
  | .ok v => v.1
  | .error _ => 0

/-- An entry dispatches successfully. -/
def DispatchOk (state : MjxState) (action : List ℚ) (next_state : MjxState)
    (dt : ℚ) (kp : String × RewardDict) : Prop :=
  ∃ v, dispatch kp.1 kp.2 state action next_state dt = .ok v

/-!
XML element model, following Python `xml.etree.ElementTree`.
An attribute value is `Option String`: `some s` is an ordinary string
value; `none` models a Python `None` stored by `Element.set` — such a
value is accepted by `set` but makes `ET.tostring` (and hence
`Sim2SimRobot.save`) raise. An absent attribute is an absent key.
`Element.get` returns `None` both for an absent key and a stored `None`,
exactly as in Python.
-/

/-- An ElementTree element: tag, attribute dictionary in insertion
order, and list of children. -/
inductive Element where
  | mk (tag : String) (attrib : List (String × Option String)) (children : List Element)
deriving Repr

/-- Tag of an element. -/
def Element.tag : Element → String
  | .mk t _ _ => t

/-- Attribute dictionary of an element. -/
def Element.attrib : Element → List (String × Option String)
  | .mk _ a _ => a

/-- Children of an element. -/
def Element.children : Element → List Element
  | .mk _ _ cs => cs

/-- Dictionary lookup on an attribute list: `some v` when the key is
present with stored value `v`. -/
def attrLookup : List (String × Option String) → String → Option (Option String)
  | [], _ => none
  | (k0, v0) :: rest, k => if k0 = k then some v0 else attrLookup rest k

/-- Python `element.get(key)`: the stored value when present (which may
itself be `None`), else `None`. -/
def Element.get (e : Element) (k : String) : Option String :=
  match attrLookup e.attrib k with
  | some v => v
  | none => none

/-- Dictionary update: replace the value at an existing key in place,
else append the new key, as a Python dict does. -/
def attribSet : List (String × Option String) → String → Option String →
    List (String × Option String)
  | [], k, v => [(k, v)]
  | (k0, v0) :: rest, k, v =>
    if k0 = k then (k0, v) :: rest else (k0, v0) :: attribSet rest k v

/-- Python `element.set(key, value)` (value may be `None`). -/
def Element.set (e : Element) (k : String) (v : Option String) : Element :=
  .mk e.tag (attribSet e.attrib k v) e.children

/-- Python `element.find(tag)`: the first direct child with the tag. -/
def Element.findDirect (e : Element) (t : String) : Option Element :=
  e.children.find? (fun c => c.tag == t)

/-- Python `list.insert(n, x)` (the index clamps at both ends). -/
def insertPy (n : ℕ) (x : Element) (l : List Element) : List Element :=
  l.take n ++ x :: l.drop n

/-- Transform the first child satisfying the predicate, in place,
modelling `find` followed by in-place mutation of the found element. -/
def mapFirst (p : Element → Bool) (f : Element → Element) : List Element → List Element
  | [] => []
  | c :: cs => if p c then f c :: cs else c :: mapFirst p f cs

/-- Append children to an element (Python `element.append` and
`element.extend`). -/
def appendKids (e : Element) (ks : List Element) : Element :=
  .mk e.tag e.attrib (e.children ++ ks)

mutual

/-- Whether `ET.tostring` serializes the element without raising: every
stored attribute value must be a string, i.e. not Python `None`. -/
def serializeOk : Element → Bool
  | .mk _ a cs => a.all (fun p => p.2.isSome) && serializeOkList cs

/-- List form of `serializeOk`. -/
def serializeOkList : List Element → Bool
  | [] => true
  | c :: cs => serializeOk c && serializeOkList cs

end

mutual

/-- All elements of a tree: the element itself and all descendants. -/
def subElems : Element → List Element
  | .mk t a cs => .mk t a cs :: subElemsList cs

/-- All elements of a forest. -/
def subElemsList : List Element → List Element
  | [] => []
  | c :: cs => subElems c ++ subElemsList cs

end

/-!
Constant element builders. The builders for `kol.formats.mjcf`
constructors (`Body`, `Joint`, `Site`, `Light`, `Geom`, `Motor`,
`Actuatorpos/vel/frc`, `Actuator`, `Sensor`, `Option`, `Default`) model
an external library that the spec treats as an opaque, already-correct
dependency; each is reconstructed from its call site in
`process_mjcf.py`. Numeric attribute values are rendered with `qs`; the
claims under study compare positions and directions through these same
renderings, so the exact digit format is immaterial.
-/

/-- Numeric attribute rendering (stand-in for Python float formatting). -/
def qs (q : ℚ) : String := toString q

/-- Two numbers separated by a space. -/
def v2 (a b : ℚ) : String := qs a ++ " " ++ qs b

/-- Three numbers separated by spaces. -/
def v3 (a b c : ℚ) : String := qs a ++ " " ++ qs b ++ " " ++ qs c

/-- Four numbers separated by spaces. -/
def v4 (a b c d : ℚ) : String := qs a ++ " " ++ qs b ++ " " ++ qs c ++ " " ++ qs d

/-- A leaf element whose attribute values are all strings. -/
def mkXe (t : String) (attrs : List (String × String)) : Element :=
  .mk t (attrs.map (fun p => (p.1, some p.2))) []

/-- DEFAULT_STANDING of process_mjcf.py, in source order. -/
def DEFAULT_STANDING : List (String × ℚ) :=
  [("torso roll", 2.58),
   ("left shoulder pitch", -0.534),
   ("left shoulder yaw", 2.54),
   ("left shoulder roll", -0.0314),
   ("right shoulder pitch", 2.45),
   ("right shoulder yaw", 3.77),
   ("right shoulder roll", -0.0314),
   ("left elbow pitch", 2.35),
   ("right elbow pitch", 2.65),
   ("left hand left finger", 0.0),
   ("left hand right finger", 0.0),
   ("right hand left finger", 0.0),
   ("right hand right finger", 0.0),
   ("left wrist roll", 1.79),
   ("left wrist pitch", 1.35),
   ("left wrist yaw", 1.07),
   ("right wrist roll", -2.13),
   ("right wrist pitch", 1.79),
   ("right wrist yaw", -0.251),
   ("left hip pitch", -1.6),
   ("left hip roll", 1.41),
   ("left hip yaw", -2.12),
   ("left knee pitch", 2.01),
   ("left ankle pitch", 0.238),
   ("left ankle roll", 1.85),
   ("right hip pitch", 1.76),
   ("right hip roll", -1.54),
   ("right hip yaw", 0.967),
   ("right knee pitch", 2.07),
   ("right ankle pitch", 0.377),
   ("right ankle roll", 1.92)]

/-- DEFAULT_LIMITS of process_mjcf.py, in source order; each entry is
the inner dict in insertion order (note the two elbow entries use the
key "higher" rather than "upper", as in the source). -/
def DEFAULT_LIMITS : List (String × List (String × ℚ)) :=
  [("torso roll", [("lower", -4.36332), ("upper", 4.36332)]),
   ("left shoulder pitch", [("lower", -0.0), ("upper", 0.2)]),
   ("left shoulder yaw", [("lower", 0.97738438), ("upper", 5.3058009)]),
   ("left shoulder roll", [("lower", -4.71239), ("upper", 4.71239)]),
   ("right shoulder pitch", [("lower", -4.71239), ("upper", 4.71239)]),
   ("right shoulder yaw", [("lower", 0.97738438), ("upper", 5.3058009)]),
   ("right shoulder roll", [("lower", -4.71239), ("upper", 4.71239)]),
   ("left wrist roll", [("lower", -4.71239), ("upper", 4.71239)]),
   ("left wrist pitch", [("lower", -3.66519), ("upper", -1.39626)]),
   ("left wrist yaw", [("lower", 0), ("upper", 1.5708)]),
   ("right wrist roll", [("lower", -4.71239), ("upper", 4.71239)]),
   ("right wrist pitch", [("lower", -1.5708), ("upper", 0.523599)]),
   ("right wrist yaw", [("lower", -1.5708), ("upper", 0)]),
   ("left hip pitch", [("lower", -4.712389), ("upper", 4.712389)]),
   ("left hip roll", [("lower", -3.14159), ("upper", 0)]),
   ("left hip yaw", [("lower", -1.0472), ("upper", 2.0944)]),
   ("left knee pitch", [("lower", -4.18879), ("upper", 0)]),
   ("left ankle pitch", [("lower", -1.5708), ("upper", 2.18166)]),
   ("left ankle roll", [("lower", -2.26893), ("upper", -1.22173)]),
   ("right hip pitch", [("lower", -4.712389), ("upper", 4.712389)]),
   ("right hip roll", [("lower", 0), ("upper", 3.14159)]),
   ("right hip yaw", [("lower", -1.0472), ("upper", 2.0944)]),
   ("right knee pitch", [("lower", -4.18879), ("upper", 0)]),
   ("right ankle pitch", [("lower", -1.5708), ("upper", 2.18166)]),
   ("right ankle roll", [("lower", -2.26893), ("upper", -1.22173)]),
   ("left elbow pitch", [("lower", 1.4486233), ("higher", 5.4454273)]),
   ("right elbow pitch", [("lower", 1.4486233), ("higher", 5.4454273)]),
   ("left hand left finger", [("lower", -0.051), ("upper", 0.0)]),
   ("left hand right finger", [("lower", 0), ("upper", 0.051)]),
   ("right hand left finger", [("lower", -0.051), ("upper", 0.0)]),
   ("right hand right finger", [("lower", 0), ("upper", 0.051)])]

/-- STOMPY_HEIGHT of process_mjcf.py. -/
def STOMPY_HEIGHT : ℚ := 1.0

/-- Modelled from the spec: `kol.formats.mjcf.Joint(name, type="slide",
axis, limited=False).to_xml()` (library missing from the repository). -/
def mkSlideJoint (name : String) (ax ay az : ℚ) : Element :=
  mkXe "joint" [("name", name), ("type", "slide"), ("axis", v3 ax ay az),
                ("limited", "false")]

/-- Modelled from the spec: `kol.formats.mjcf.Joint(name, type="ball",
limited=False).to_xml()` (library missing from the repository). -/
def mkBallJoint (name : String) : Element :=
  mkXe "joint" [("name", name), ("type", "ball"), ("limited", "false")]

/-- Modelled from the spec: `kol.formats.mjcf.Site(name="imu",
size=0.01, pos=(0,0,0)).to_xml()` (library missing from the
repository). -/
def imuSite : Element :=
  mkXe "site" [("name", "imu"), ("size", qs 0.01), ("pos", v3 0 0 0)]

/-- Modelled from the spec: `kol.formats.mjcf.Light(...).to_xml()` for
the light at height 5.0 with shadows disabled (library missing from the
repository). -/
def light5 : Element :=
  mkXe "light" [("directional", "true"), ("diffuse", v3 0.4 0.4 0.4),
                ("specular", v3 0.1 0.1 0.1), ("pos", v3 0 0 5.0),
                ("dir", v3 0 0 (-1)), ("castshadow", "false")]

/-- Modelled from the spec: `kol.formats.mjcf.Light(...).to_xml()` for
the light at height 4 (library missing from the repository). -/
def light4 : Element :=
  mkXe "light" [("directional", "true"), ("diffuse", v3 0.6 0.6 0.6),
                ("specular", v3 0.2 0.2 0.2), ("pos", v3 0 0 4),
                ("dir", v3 0 0 (-1))]

/-- Modelled from the spec: `kol.formats.mjcf.Geom(name="ground",
type="plane", ...).to_xml()` (library missing from the repository). -/
def groundGeom : Element :=
  mkXe "geom" [("name", "ground"), ("type", "plane"), ("size", v3 0 0 1),
               ("pos", v3 0.001 0 0), ("quat", v4 1 0 0 0),
               ("material", "matplane"), ("condim", "3"),
               ("conaffinity", "1"), ("contype", "0")]

/-- Modelled from the spec: `kol.formats.mjcf.Motor(name=j, joint=j,
gear=1, ctrlrange=(-200,200), ctrllimited=True)` rendered to XML
(library missing from the repository). -/
def mkMotor (j : String) : Element :=
  mkXe "motor" [("name", j), ("joint", j), ("gear", qs 1),
                ("ctrlrange", v2 (-200) 200), ("ctrllimited", "true")]

/-- Modelled from the spec: `kol.formats.mjcf.Actuatorpos(name=j+"_p",
actuator=j, user="13")` rendered to XML (library missing from the
repository). -/
def mkActuatorpos (j : String) : Element :=
  mkXe "actuatorpos" [("name", j ++ "_p"), ("actuator", j), ("user", "13")]

/-- Modelled from the spec: `kol.formats.mjcf.Actuatorvel(name=j+"_v",
actuator=j, user="13")` rendered to XML (library missing from the
repository). -/
def mkActuatorvel (j : String) : Element :=
  mkXe "actuatorvel" [("name", j ++ "_v"), ("actuator", j), ("user", "13")]

/-- Modelled from the spec: `kol.formats.mjcf.Actuatorfrc(name=j+"_f",
actuator=j, user="13", noise=0.001)` rendered to XML (library missing
from the repository). -/
def mkActuatorfrc (j : String) : Element :=
  mkXe "actuatorfrc" [("name", j ++ "_f"), ("actuator", j), ("user", "13"),
                      ("noise", qs 0.001)]

/-- The joints for which motors and sensors are created: the keys of
DEFAULT_LIMITS, in order, that are also keys of DEFAULT_STANDING. -/
def motorJoints : List String :=
  (DEFAULT_LIMITS.map Prod.fst).filter
    (fun j => (DEFAULT_STANDING.map Prod.fst).contains j)

/-- Modelled from the spec: `kol.formats.mjcf.Actuator(motors).to_xml()`
— an `actuator` grouping element holding the motors (library missing
from the repository). -/
def actuatorSection : Element :=
  .mk "actuator" [] (motorJoints.map mkMotor)

/-- Modelled from the spec:
`kol.formats.mjcf.Sensor(sensor_pos, sensor_vel, sensor_frc).to_xml()` —
a `sensor` grouping element holding the three sensor lists (library
missing from the repository). -/
def sensorSection : Element :=
  .mk "sensor" []
    (motorJoints.map mkActuatorpos ++ motorJoints.map mkActuatorvel ++
     motorJoints.map mkActuatorfrc)

/-- The checker texture appended to `asset` (direct `ET.Element` call in
process_mjcf.py). -/
def texplaneEl : Element :=
  mkXe "texture" [("name", "texplane"), ("type", "2d"), ("builtin", "checker"),
                  ("rgb1", ".0 .0 .0"), ("rgb2", ".8 .8 .8"),
                  ("width", "100"), ("height", "108")]

/-- The plane material appended to `asset`. -/
def matplaneEl : Element :=
  mkXe "material" [("name", "matplane"), ("reflectance", "0."),
                   ("texture", "texplane"), ("texrepeat", "1 1"),
                   ("texuniform", "true")]

/-- The visualgeom material appended to `asset`. -/
def visualgeomMatEl : Element :=
  mkXe "material" [("name", "visualgeom"), ("rgba", "0.5 0.9 0.2 1")]

/-- The framequat IMU sensor (direct `ET.Element` call). -/
def framequatEl : Element :=
  mkXe "framequat" [("name", "orientation"), ("objtype", "site"),
                    ("noise", "0.001"), ("objname", "imu")]

/-- The gyro IMU sensor (direct `ET.Element` call). -/
def gyroEl : Element :=
  mkXe "gyro" [("name", "angular-velocity"), ("site", "imu"),
               ("noise", "0.005"), ("cutoff", "34.9")]

/-- Modelled from the spec: `kol.formats.mjcf.Option(timestep=0.001,
viscosity=1e-6, iterations=50, solver="PGS", gravity=(0,0,-9.81),
flag=Flag(frictionloss="enable")).to_xml()` (library missing from the
repository). -/
def optionSection : Element :=
  .mk "option"
    [("timestep", some (qs 0.001)), ("viscosity", some (qs 0.000001)),
     ("iterations", some "50"), ("solver", some "PGS"),
     ("gravity", some (v3 0 0 (-9.81)))]
    [mkXe "flag" [("frictionloss", "enable")]]

/-- The `<default class="visualgeom">` block built with direct
`ET.Element`/`ET.SubElement` calls in process_mjcf.py. -/
def visualGeomDefault : Element :=
  .mk "default" [("class", some "visualgeom")]
    [mkXe "geom" [("material", "visualgeom"), ("condim", "3"),
                  ("contype", "0"), ("conaffinity", "0")]]

/-- Modelled from the spec: `kol.formats.mjcf.Default(joint=...,
motor=..., equality=..., geom=..., visual_geom=...).to_xml()` (library
missing from the repository). -/
def defaultSection : Element :=
  .mk "default" []
    [mkXe "joint" [("armature", qs 0.01), ("damping", qs 0.1),
                   ("limited", "true"), ("frictionloss", qs 0.00)],
     mkXe "motor" [("ctrllimited", "true")],
     mkXe "equality" [("solref", v2 0.001 2)],
     mkXe "geom" [("solref", v2 0.001 2), ("friction", v3 0.9 0.2 0.2),
                  ("condim", "3"), ("contype", "1"), ("conaffinity", "0")],
     visualGeomDefault]

/-- The new floating-base body before the original worldbody children
are moved into it. Modelled from the spec for the
`kol.formats.mjcf.Body(name="root", pos=(0,0,STOMPY_HEIGHT),
quat=(1,0,0,0)).to_xml()` shell; the joints and imu site are then
appended as in process_mjcf.py. -/
def rootBodyBase : Element :=
  .mk "body"
    [("name", some "root"), ("pos", some (v3 0 0 STOMPY_HEIGHT)),
     ("quat", some (v4 1 0 0 0))]
    [mkSlideJoint "root_x" 1 0 0,
     mkSlideJoint "root_y" 0 1 0,
     mkSlideJoint "root_z" 0 0 1,
     mkBallJoint "root_ball",
     imuSite]

/-!
The three passes of `adapt_world` that walk the whole tree. In the
source each runs as a loop over `root.findall(...)` (a snapshot, in
document order); every iteration only rewrites data local to the found
element (its attributes, or its list of direct children), so the loops
are equivalent to one recursive traversal each, which is how they are
embedded here.
-/

/-- Python truthiness of `element.get(key)`: `None` and the empty string
are falsy. -/
def truthy : Option String → Bool
  | none => false
  | some s => s ≠ ""

/-- The duplicated visual geom built for an original geom `g` in the
"add visual geom logic" loop: a fresh `geom` element on which `set` is
called, in source order, for `type`, `rgba`, `mesh` (each copying
`g.get`, possibly storing `None`), then `pos` and `quat` only when
`g.get` is truthy, then the constants `contype="0"`, `conaffinity="0"`,
`group="1"`, `density="0"`. -/
def mkVisualDup (g : Element) : Element :=
  .mk "geom"
    ([("type", g.get "type"), ("rgba", g.get "rgba"), ("mesh", g.get "mesh")]
     ++ (if truthy (g.get "pos") then [("pos", g.get "pos")] else [])
     ++ (if truthy (g.get "quat") then [("quat", g.get "quat")] else [])
     ++ [("contype", some "0"), ("conaffinity", some "0"),
         ("group", some "1"), ("density", some "0")])
    []

/-- One body's step of the visual-geom loop: each direct `geom` child
gets `class="visualgeom"` and its visual duplicate inserted immediately
after it; other children are untouched. Only the geoms present at the
start of the loop are processed (`original_geoms` is a snapshot), which
the recursion reflects by not descending into the inserted duplicates. -/
def dupGeoms : List Element → List Element
  | [] => []
  | c :: cs =>
    if c.tag = "geom" then
      c.set "class" (some "visualgeom") :: mkVisualDup c :: dupGeoms cs
    else
      c :: dupGeoms cs

mutual

/-- The "add visual geom logic" loop of `adapt_world`, as a traversal:
every element with tag `body` found anywhere below the root has its
direct geom children rewritten by `dupGeoms`. -/
def visitElem : Element → Element
  | .mk t a cs =>
    if t = "body" then .mk t a (dupGeoms (visitList cs))
    else .mk t a (visitList cs)

/-- Forest form of `visitElem`. -/
def visitList : List Element → List Element
  | [] => []
  | c :: cs => visitElem c :: visitList cs

end

/-- Attribute-level step of `add_reference_position`: when the element
is a `joint` whose `name` is a key of DEFAULT_STANDING, set
`ref=str(value)`. -/
def refAttrib (t : String) (a : List (String × Option String))
    (cs : List Element) : List (String × Option String) :=
  if t = "joint" then
    match (Element.mk t a cs).get "name" with
    | none => a
    | some n =>
      match DEFAULT_STANDING.lookup n with
      | none => a
      | some v => attribSet a "ref" (some (qs v))
  else a

mutual

/-- The `add_reference_position` pass on an element and its
descendants. -/
def refElem : Element → Element
  | .mk t a cs => .mk t (refAttrib t a cs) (refList cs)

/-- Forest form of `refElem`. -/
def refList : List Element → List Element
  | [] => []
  | c :: cs => refElem c :: refList cs

end

/-- `add_reference_position`: `root.findall(".//joint")` covers strict
descendants only, so the root node itself is not rewritten. -/
def addReferencePosition (root : Element) : Element :=
  .mk root.tag root.attrib (refList root.children)

/-- One body's step of the `remove_frc_range` loop: pop
`actuatorfrcrange` from each direct `joint` child. -/
def stripFrcKids (cs : List Element) : List Element :=
  cs.map (fun c =>
    if c.tag = "joint" then
      .mk c.tag (c.attrib.filter (fun p => p.1 ≠ "actuatorfrcrange")) c.children
    else c)

mutual

/-- The `remove_frc_range` loop of `adapt_world`, as a traversal over
all bodies below the root. Stripping the direct joint children of a
body only touches their attributes while the recursion only touches
their children, so the two commute and stripping is applied after the
recursion. -/
def frcElem : Element → Element
  | .mk t a cs =>
    if t = "body" then .mk t a (stripFrcKids (frcList cs))
    else .mk t a (frcList cs)

/-- Forest form of `frcElem`. -/
def frcList : List Element → List Element
  | [] => []
  | c :: cs => frcElem c :: frcList cs

end

/-- `Sim2SimRobot.adapt_world`, for a robot whose `self.compiler` is
`None` (the `kol` Robot machinery is outside the repository; with no
compiler override the compiler branch is a no-op). Returns `none` where
the Python raises: when `add_floor` is set but there is no direct
`asset` child (`asset.append` on `None`), and when there is no direct
`worldbody` child (iteration over `None`).

The worldbody surgery is written as its net effect: the original
children are snapshotted, the new root body is appended and the lights
and optional floor are inserted at the front, and the snapshotted items
are then removed from the worldbody (removal is by object identity, so
exactly the snapshotted items leave) and appended to the new root body. -/
def adaptWorld (add_floor add_reference_position remove_frc_range : Bool)
    (root : Element) : Option Element :=
  -- floor assets
  let rootA : Option Element :=
    if add_floor then
      match root.findDirect "asset" with
      | none => none
      | some _ =>
        some (Element.mk root.tag root.attrib
          (mapFirst (fun c => c.tag == "asset")
            (fun asset => appendKids asset [texplaneEl, matplaneEl, visualgeomMatEl])
            root.children))
    else some root
  match rootA with
  | none => none
  | some root1 =>
    match root1.findDirect "worldbody" with
    | none => none
    | some wb =>
      -- snapshot of the worldbody children, then floor/lights/new root body
      let items : List Element := wb.children
      let newRootBody : Element := appendKids rootBodyBase items
      let wbKids : List Element :=
        (if add_floor then [groundGeom] else []) ++ [light4, light5, newRootBody]
      let root2 : Element := Element.mk root1.tag root1.attrib
        (mapFirst (fun c => c.tag == "worldbody")
          (fun w => Element.mk w.tag w.attrib wbKids) root1.children)
      -- actuators and sensors appended at the end of the root
      let root3 : Element := appendKids root2 [actuatorSection, sensorSection]
      -- IMU sensors appended to the first direct `sensor` child
      let root4 : Element := Element.mk root3.tag root3.attrib
        (mapFirst (fun c => c.tag == "sensor")
          (fun s => appendKids s [framequatEl, gyroEl]) root3.children)
      -- `option` inserted at index 1, then `default` inserted at index 1
      let root5 : Element := Element.mk root4.tag root4.attrib (insertPy 1 optionSection root4.children)
      let root6 : Element := Element.mk root5.tag root5.attrib (insertPy 1 defaultSection root5.children)
      let root7 : Element := if add_reference_position then addReferencePosition root6 else root6
      -- visual geom pass over all bodies below the root
      let root8 : Element := Element.mk root7.tag root7.attrib (visitList root7.children)
      let root9 : Element :=
        if remove_frc_range then Element.mk root8.tag root8.attrib (frcList root8.children)
        else root8
      some root9

/-- The children of the rewritten worldbody right after the surgery:
optional floor geom, the two lights, and the new root body holding the
original worldbody children. -/
def wbReplaceKids (af : Bool) (wb : Element) : List Element :=
  (if af then [groundGeom] else []) ++
    [light4, light5, appendKids rootBodyBase wb.children]

/-- The children of the root element after the non-traversal steps of
`adapt_world` (worldbody surgery, actuator/sensor append, IMU sensors,
option and default inserts), before the visual-geom pass, as a function
of the post-asset-step children `l` and the worldbody `wb` found in
them. -/
def surgeryList (af : Bool) (wb : Element) (l : List Element) : List Element :=
  insertPy 1 defaultSection (insertPy 1 optionSection
    (mapFirst (fun c => c.tag == "sensor")
      (fun s => appendKids s [framequatEl, gyroEl])
      (mapFirst (fun c => c.tag == "worldbody")
        (fun w => Element.mk w.tag w.attrib (wbReplaceKids af wb)) l
        ++ [actuatorSection, sensorSection])))

/-- The asset-step transformation of the root children when `add_floor`
is set. -/
def assetStepList (l : List Element) : List Element :=
  mapFirst (fun c => c.tag == "asset")
    (fun asset => appendKids asset [texplaneEl, matplaneEl, visualgeomMatEl]) l

/-- A geom element carries string values for the three attributes the
visual-geom pass copies unconditionally (`type`, `rgba`, `mesh`);
trivially true for non-geoms. -/
def geomHasTRM (c : Element) : Bool :=
  if c.tag = "geom" then
    (c.get "type").isSome && (c.get "rgba").isSome && (c.get "mesh").isSome
  else true

mutual

/-- Every geom that the visual-geom pass will duplicate — a direct geom
child of a `body`, or (when `w` is set, for input trees) of the
`worldbody`, whose geom children are moved under the new root body —
carries `type`, `rgba` and `mesh`. -/
def trmOk (w : Bool) : Element → Bool
  | .mk t _ cs =>
    (if t = "body" ∨ (w = true ∧ t = "worldbody") then cs.all geomHasTRM
     else true) && trmOkList w cs

/-- Forest form of `trmOk`. -/
def trmOkList (w : Bool) : List Element → Bool
  | [] => true
  | c :: cs => trmOk w c && trmOkList w cs

end

/-- Default element used to extract nodes from concrete outputs. -/
def defaultE : Element := .mk "" [] []

/-- Sample robot input tree used by witnesses: an empty asset block and
a worldbody holding one body with a fully attributed mesh geom. -/
def wGeom : Element :=
  .mk "geom" [("type", some "mesh"), ("rgba", some "1 1 1 1"),
              ("mesh", some "part")] []

/-- The body of the sample input tree. -/
def wBody : Element := .mk "body" [("name", some "torso")] [wGeom]

/-- The sample input tree. -/
def wTree : Element :=
  .mk "mujoco" [] [.mk "asset" [] [], .mk "worldbody" [] [wBody]]

/-- A geom with no `rgba` and no `mesh` attribute: its visual duplicate
stores Python `None` for both, which `save` cannot serialize. -/
def c2Geom : Element := .mk "geom" [("type", some "box")] []

/-- Input tree whose only body carries `c2Geom`. -/
def c2Tree : Element :=
  .mk "mujoco" []
    [.mk "asset" [] [], .mk "worldbody" [] [.mk "body" [("name", some "b")] [c2Geom]]]

/-- A geom whose `pos` attribute is present but equal to the empty
string — falsy in Python, so the visual-geom pass does not copy it. -/
def c3Geom : Element :=
  .mk "geom" [("type", some "box"), ("rgba", some "1 1 1 1"),
              ("mesh", some "m"), ("pos", some "")] []

/-- Input tree whose only body carries `c3Geom`. -/
def c3Tree : Element :=
  .mk "mujoco" []
    [.mk "asset" [] [], .mk "worldbody" [] [.mk "body" [("name", some "b")] [c3Geom]]]

/-- The adapted sample tree (with the floor, without reference
positions or frc-range removal), used as the concrete run in
witnesses. -/
def wOut : Element := (adaptWorld true false false wTree).getD defaultE

/-!
Theorems. First the reward-side claims, then the MJCF claims.
-/

theorem rewardLoop_ok_sum (dt : ℚ) (inc : Bool) (s : MjxState) (a : List ℚ)
    (ns : MjxState) :
    ∀ (l : RewardParams) (r0 h0 : ℚ) (acc : List (String × ℚ)),
      (∀ kp ∈ l, DispatchOk s a ns dt kp) →
      ∃ h bd, rewardLoop dt inc s a ns l r0 h0 acc =
        .ok (r0 + (l.map (dispatchFst s a ns dt)).sum, h, bd) := by
  intro l
  induction l with
  | nil =>
    intro r0 h0 acc _
    exact ⟨h0, acc, by simp [rewardLoop]⟩
  | cons kp rest ih =>
    intro r0 h0 acc hok
    obtain ⟨v, hv⟩ := hok kp (List.mem_cons_self kp rest)
    obtain ⟨h, bd, hrec⟩ := ih (r0 + v.1) (h0 * v.2)
      (if inc then acc ++ [(kp.1, v.1)] else acc)
      (fun x hx => hok x (List.mem_cons_of_mem kp hx))
    refine ⟨h, bd, ?_⟩
    obtain ⟨key, params⟩ := kp
    simp only [rewardLoop, hv]
    rw [hrec]
    have hfst : dispatchFst s a ns dt (key, params) = v.1 := by
      simp [dispatchFst, hv]
    simp only [List.map_cons, List.sum_cons, hfst]
    ring_nf

/-- C1: for reward parameters whose entries all dispatch successfully
(in particular all keys are registered), the function returned by
`get_reward_fn` returns as its first component exactly the sum, over
the entries of `reward_params`, of the first component of
`reward_functions[key](state, action, next_state, dt, params)`. -/
theorem C1_reward_is_sum (rp : RewardParams) (dt : ℚ) (inc : Bool)
    (s : MjxState) (a : List ℚ) (ns : MjxState)
    (hok : ∀ kp ∈ rp, DispatchOk s a ns dt kp) :
    ∃ h bd, get_reward_fn rp dt inc s a ns =
      .ok ((rp.map (dispatchFst s a ns dt)).sum, h, bd) := by
  obtain ⟨h, bd, hres⟩ := rewardLoop_ok_sum dt inc s a ns rp 0 1 [] hok
  exact ⟨h, bd, by simpa using hres⟩

/-- C6: the reward function returned by `get_reward_fn` is
deterministic — two applications to equal inputs return equal result
triples. (In this embedding the reward functions are pure Lean
functions over explicit state values, so they can neither mutate
`state`, `action`, `next_state` nor read anything besides them; the
absence of side effects is intrinsic to the model, and this theorem
records the resulting two-run equivalence.) -/
theorem C6_deterministic (rp : RewardParams) (dt : ℚ) (inc : Bool)
    (s1 s2 : MjxState) (a1 a2 : List ℚ) (ns1 ns2 : MjxState)
    (hs : s1 = s2) (ha : a1 = a2) (hns : ns1 = ns2) :
    get_reward_fn rp dt inc s1 a1 ns1 = get_reward_fn rp dt inc s2 a2 ns2 := by
  rw [hs, ha, hns]

theorem rewardLoop_missing_key (dt : ℚ) (inc : Bool) (s : MjxState)
    (a : List ℚ) (ns : MjxState) :
    ∀ (l : RewardParams) (r0 h0 : ℚ) (acc : List (String × ℚ)) (k : String),
      k ∈ l.map Prod.fst → reward_functions.lookup k = none →
      ∃ k2, rewardLoop dt inc s a ns l r0 h0 acc = .error (.keyError k2) := by
  intro l
  induction l with
  | nil => intro r0 h0 acc k hk _; simp at hk
  | cons kp rest ih =>
    intro r0 h0 acc k hk hmiss
    obtain ⟨key, params⟩ := kp
    rcases hcase : dispatch key params s a ns dt with e | v
    · obtain ⟨k2⟩ := e
      exact ⟨k2, by simp [rewardLoop, hcase]⟩
    · have hkey : k ≠ key := by
        intro heq
        rw [heq] at hmiss
        simp [dispatch, hmiss] at hcase
      have hrest : k ∈ rest.map Prod.fst := by
        simpa [hkey] using hk
      obtain ⟨k2, hres⟩ := ih (r0 + v.1) (h0 * v.2)
        (if inc then acc ++ [(key, v.1)] else acc) k hrest hmiss
      exact ⟨k2, by simp [rewardLoop, hcase]; exact hres⟩

/-- C8: when some key of `reward_params` is not registered in
`reward_functions`, `get_reward_fn` itself still returns a function
(totality of the embedding), and that function, applied to any
(state, action, next_state), evaluates to a raised KeyError rather than
returning any partial sum. -/
theorem C8_missing_key_error (rp : RewardParams) (dt : ℚ) (inc : Bool)
    (s : MjxState) (a : List ℚ) (ns : MjxState) (k : String)
    (hk : k ∈ rp.map Prod.fst) (hmiss : reward_functions.lookup k = none) :
    ∃ k2, get_reward_fn rp dt inc s a ns = .error (.keyError k2) :=
  rewardLoop_missing_key dt inc s a ns rp 0 1 [] k hk hmiss

/-- C9: when `params` contains both healthy bounds, `healthy_reward_fn`
returns health value 1 exactly when
`healthy_z_lower ≤ q[2] ≤ healthy_z_upper` (both boundaries count as
healthy, since the code compares with strict `<` and `>`), and 0
otherwise; the reward is `weight` times that value, and `action`,
`next_state`, `dt` never affect the result. -/
theorem C9_healthy_bounds (s : MjxState) (a : List ℚ) (ns : MjxState)
    (dt : ℚ) (p : RewardDict) (lo hi : ℚ)
    (hlo : p.healthy_z_lower = some lo) (hhi : p.healthy_z_upper = some hi) :
    healthy_reward_fn s a ns dt p =
      .ok (p.weight * (if lo ≤ s.q.getD 2 0 ∧ s.q.getD 2 0 ≤ hi then 1 else 0),
           if lo ≤ s.q.getD 2 0 ∧ s.q.getD 2 0 ≤ hi then 1 else 0) ∧
    (∀ (a2 : List ℚ) (ns2 : MjxState) (dt2 : ℚ),
      healthy_reward_fn s a2 ns2 dt2 p = healthy_reward_fn s a ns dt p) := by
  constructor
  · have hgen : (if s.q.getD 2 0 > hi then (0:ℚ) else if s.q.getD 2 0 < lo then 0 else 1) =
        (if lo ≤ s.q.getD 2 0 ∧ s.q.getD 2 0 ≤ hi then 1 else 0) := by
      rcases lt_or_le hi (s.q.getD 2 0) with h2 | h2
      · rw [if_pos h2, if_neg (fun hc => absurd h2 (not_lt.mpr hc.2))]
      · rw [if_neg (not_lt.mpr h2)]
        rcases lt_or_le (s.q.getD 2 0) lo with h1 | h1
        · rw [if_pos h1, if_neg (fun hc => absurd h1 (not_lt.mpr hc.1))]
        · rw [if_neg (not_lt.mpr h1), if_pos ⟨h1, h2⟩]
    simp only [healthy_reward_fn, hlo, hhi]
    rw [hgen]
  · intro a2 ns2 dt2
    rfl

theorem rewardLoop_toggle (dt : ℚ) (s : MjxState)
    (a : List ℚ) (ns : MjxState) :
    ∀ (l : RewardParams) (r0 h0 : ℚ) (acc1 acc2 : List (String × ℚ)),
      (∃ e, rewardLoop dt true s a ns l r0 h0 acc1 = .error e ∧
            rewardLoop dt false s a ns l r0 h0 acc2 = .error e) ∨
      (∃ r h, rewardLoop dt true s a ns l r0 h0 acc1 =
                .ok (r, h, acc1 ++ l.map (fun kp => (kp.1, dispatchFst s a ns dt kp))) ∧
              rewardLoop dt false s a ns l r0 h0 acc2 = .ok (r, h, acc2)) := by
  intro l
  induction l with
  | nil =>
    intro r0 h0 acc1 acc2
    exact Or.inr ⟨r0, h0, by simp [rewardLoop], by simp [rewardLoop]⟩
  | cons kp rest ih =>
    intro r0 h0 acc1 acc2
    obtain ⟨key, params⟩ := kp
    rcases hcase : dispatch key params s a ns dt with e | v
    · exact Or.inl ⟨e, by simp [rewardLoop, hcase], by simp [rewardLoop, hcase]⟩
    · have hfst : dispatchFst s a ns dt (key, params) = v.1 := by
        simp [dispatchFst, hcase]
      rcases ih (r0 + v.1) (h0 * v.2) (acc1 ++ [(key, v.1)]) acc2 with
        ⟨e, h1, h2⟩ | ⟨r, h, h1, h2⟩
      · exact Or.inl ⟨e, by simp [rewardLoop, hcase]; exact h1,
          by simp [rewardLoop, hcase]; exact h2⟩
      · refine Or.inr ⟨r, h, ?_, ?_⟩
        · simp only [rewardLoop, hcase]
          rw [if_pos (trivial : True), h1]
          simp [hfst]
        · simp only [rewardLoop, hcase]
          rw [if_neg (by decide : ¬(false = true))]
          exact h2

/-- C10: the breakdown returned by the function from `get_reward_fn` is
empty whenever `include_reward_breakdown` is false; when it is true the
breakdown maps exactly the keys of `reward_params`, in order, each to
the first component of that key's dispatched reward; and toggling
`include_reward_breakdown` changes neither the first two components of
a successful result nor the raised error of a failing one. -/
theorem C10_breakdown_toggle (rp : RewardParams) (dt : ℚ) (s : MjxState)
    (a : List ℚ) (ns : MjxState) :
    (∀ r h bd, get_reward_fn rp dt true s a ns = .ok (r, h, bd) →
       bd = rp.map (fun kp => (kp.1, dispatchFst s a ns dt kp)) ∧
       get_reward_fn rp dt false s a ns = .ok (r, h, [])) ∧
    (∀ e, get_reward_fn rp dt true s a ns = .error e ↔
          get_reward_fn rp dt false s a ns = .error e) := by
  have key := rewardLoop_toggle dt s a ns rp 0 1 [] []
  constructor
  · intro r h bd hok
    rcases key with ⟨e, h1, _⟩ | ⟨r2, h2, h1, h2f⟩
    · rw [get_reward_fn] at hok
      rw [hok] at h1
      exact absurd h1 (by simp)
    · rw [get_reward_fn] at hok
      rw [hok] at h1
      obtain ⟨hr, hh, hbd⟩ : r = r2 ∧ h = h2 ∧
          bd = [] ++ rp.map (fun kp => (kp.1, dispatchFst s a ns dt kp)) := by
        have := h1
        simp at this
        exact ⟨this.1, this.2.1, this.2.2⟩
      subst hr; subst hh
      exact ⟨by simpa using hbd, by rw [get_reward_fn]; exact h2f⟩
  · intro e
    rcases key with ⟨e2, h1, h2⟩ | ⟨r2, h2, h1, h2f⟩
    · constructor
      · intro htrue
        rw [get_reward_fn] at htrue
        rw [htrue] at h1
        obtain rfl : e2 = e := by simpa using h1.symm
        rw [get_reward_fn]
        exact h2
      · intro hfalse
        rw [get_reward_fn] at hfalse
        rw [hfalse] at h2
        obtain rfl : e2 = e := by simpa using h2.symm
        rw [get_reward_fn]
        exact h1
    · constructor
      · intro htrue
        rw [get_reward_fn] at htrue
        rw [htrue] at h1
        exact absurd h1 (by simp)
      · intro hfalse
        rw [get_reward_fn] at hfalse
        rw [hfalse] at h2f
        exact absurd h2f (by simp)

/-!
List and element lemmas for the MJCF theorems.
-/

@[simp]
theorem Element.tag_mk (t : String) (a : List (String × Option String))
    (cs : List Element) : (Element.mk t a cs).tag = t := rfl

@[simp]
theorem Element.attrib_mk (t : String) (a : List (String × Option String))
    (cs : List Element) : (Element.mk t a cs).attrib = a := rfl

@[simp]
theorem Element.children_mk (t : String) (a : List (String × Option String))
    (cs : List Element) : (Element.mk t a cs).children = cs := rfl

theorem Element.eta (e : Element) : Element.mk e.tag e.attrib e.children = e := by
  cases e; rfl

@[simp]
theorem visitElem_tag (e : Element) : (visitElem e).tag = e.tag := by
  cases e with
  | mk t a cs =>
    by_cases h : t = "body" <;> simp [visitElem, h]

@[simp]
theorem visitElem_attrib (e : Element) : (visitElem e).attrib = e.attrib := by
  cases e with
  | mk t a cs =>
    by_cases h : t = "body" <;> simp [visitElem, h]

theorem visitElem_get (e : Element) (k : String) :
    (visitElem e).get k = e.get k := by
  unfold Element.get
  rw [visitElem_attrib]

theorem visitElem_children_body (e : Element) (h : e.tag = "body") :
    (visitElem e).children = dupGeoms (visitList e.children) := by
  cases e with
  | mk t a cs =>
    simp at h
    simp [visitElem, h]

theorem visitElem_children_nonbody (e : Element) (h : e.tag ≠ "body") :
    (visitElem e).children = visitList e.children := by
  cases e with
  | mk t a cs =>
    simp at h
    simp [visitElem, h]

@[simp]
theorem visitList_nil : visitList [] = [] := rfl

@[simp]
theorem visitList_cons (c : Element) (cs : List Element) :
    visitList (c :: cs) = visitElem c :: visitList cs := rfl

theorem visitList_append (l1 l2 : List Element) :
    visitList (l1 ++ l2) = visitList l1 ++ visitList l2 := by
  induction l1 with
  | nil => rfl
  | cons c cs ih => simp [ih]

theorem visitList_eq_map (l : List Element) : visitList l = l.map visitElem := by
  induction l with
  | nil => rfl
  | cons c cs ih => simp [ih]

theorem mem_visitList (l : List Element) (x : Element) :
    x ∈ visitList l ↔ ∃ c ∈ l, x = visitElem c := by
  rw [visitList_eq_map]
  simp [eq_comm]

@[simp]
theorem Element.set_tag (e : Element) (k : String) (v : Option String) :
    (e.set k v).tag = e.tag := rfl

@[simp]
theorem Element.set_children (e : Element) (k : String) (v : Option String) :
    (e.set k v).children = e.children := rfl

theorem find?_visitList (q : String) (l : List Element) :
    List.find? (fun c => c.tag == q) (visitList l) =
      (List.find? (fun c => c.tag == q) l).map visitElem := by
  induction l with
  | nil => rfl
  | cons c cs ih =>
    by_cases h : c.tag == q
    · simp [List.find?_cons, h]
    · simp only [visitList_cons, List.find?_cons]
      have h2 : ((visitElem c).tag == q) = false := by
        rw [visitElem_tag]; simpa using h
      rw [h2]
      have h3 : (c.tag == q) = false := by simpa using h
      rw [h3]
      exact ih

theorem find?_mapFirst_disjoint (q p : Element → Bool) (f : Element → Element)
    (hd : ∀ x, p x = true → q x = false)
    (hf : ∀ x, p x = true → q (f x) = false) (l : List Element) :
    List.find? q (mapFirst p f l) = List.find? q l := by
  induction l with
  | nil => rfl
  | cons c cs ih =>
    by_cases h : p c
    · simp only [mapFirst, h, if_true, List.find?_cons, hf c h, hd c h]
    · have hb : p c = false := by simpa using h
      simp only [mapFirst, hb, Bool.false_eq_true, if_false, List.find?_cons]
      cases hq : q c
      · exact ih
      · rfl

theorem find?_mapFirst_self (p : Element → Bool) (f : Element → Element)
    (l : List Element) (x : Element) (h : List.find? p l = some x)
    (hpf : p (f x) = true) :
    List.find? p (mapFirst p f l) = some (f x) := by
  induction l with
  | nil => simp at h
  | cons c cs ih =>
    by_cases hc : p c
    · have hx : c = x := by
        rw [List.find?_cons_of_pos _ hc] at h
        simpa using h
      subst hx
      simp only [mapFirst, hc, if_true, List.find?_cons_of_pos _ hpf]
    · have hb : p c = false := by simpa using hc
      rw [List.find?_cons_of_neg _ hc] at h
      simp only [mapFirst, hb, Bool.false_eq_true, if_false]
      rw [List.find?_cons_of_neg _ hc]
      exact ih h

theorem find?_insertPy (q : Element → Bool) (n : ℕ) (x : Element)
    (l : List Element) (hx : q x = false) :
    List.find? q (insertPy n x l) = List.find? q l := by
  unfold insertPy
  rw [List.find?_append, List.find?_cons_of_neg _ (by simp [hx])]
  rw [← List.find?_append, List.take_append_drop]

theorem find?_append_left (q : Element → Bool) (l l2 : List Element)
    (x : Element) (h : List.find? q l = some x) :
    List.find? q (l ++ l2) = some x := by
  rw [List.find?_append, h]
  rfl

theorem subElems_def (e : Element) :
    subElems e = e :: subElemsList e.children := by
  cases e; rfl

theorem self_mem_subElems (e : Element) : e ∈ subElems e := by
  rw [subElems_def]
  exact List.mem_cons_self e _

@[simp]
theorem subElemsList_nil : subElemsList [] = [] := rfl

@[simp]
theorem subElemsList_cons (c : Element) (cs : List Element) :
    subElemsList (c :: cs) = subElems c ++ subElemsList cs := rfl

theorem mem_subElemsList_iff (l : List Element) (b : Element) :
    b ∈ subElemsList l ↔ ∃ c ∈ l, b ∈ subElems c := by
  induction l with
  | nil => simp
  | cons c cs ih =>
    simp only [subElemsList_cons, List.mem_append, ih, List.mem_cons]
    constructor
    · rintro (h | ⟨c2, hc2, hb⟩)
      · exact ⟨c, Or.inl rfl, h⟩
      · exact ⟨c2, Or.inr hc2, hb⟩
    · rintro ⟨c2, hc2 | hc2, hb⟩
      · exact Or.inl (hc2 ▸ hb)
      · exact Or.inr ⟨c2, hc2, hb⟩

theorem mem_subElems_set (e b : Element) (k : String) (v : Option String)
    (hb : b ∈ subElems e) (hne : b.tag ≠ e.tag) :
    b ∈ subElems (e.set k v) := by
  cases e with
  | mk t a cs =>
    rw [subElems_def] at hb ⊢
    rcases List.mem_cons.mp hb with h | h
    · exact absurd (congrArg Element.tag h) hne
    · exact List.mem_cons_of_mem _ h

theorem mem_subList_dupGeoms (l : List Element) (b : Element)
    (hb : b ∈ subElemsList l) (hg : b.tag ≠ "geom") :
    b ∈ subElemsList (dupGeoms l) := by
  induction l with
  | nil => simp at hb
  | cons c cs ih =>
    rcases List.mem_append.mp hb with h | h
    · by_cases hc : c.tag = "geom"
      · have hbc : b ∈ subElems (c.set "class" (some "visualgeom")) :=
          mem_subElems_set c b _ _ h (by rw [hc]; exact hg)
        simp only [dupGeoms, hc, if_true, subElemsList_cons]
        exact List.mem_append.mpr (Or.inl hbc)
      · simp only [dupGeoms, hc, if_false, subElemsList_cons]
        exact List.mem_append.mpr (Or.inl h)
    · by_cases hc : c.tag = "geom"
      · simp only [dupGeoms, hc, if_true, subElemsList_cons]
        exact List.mem_append.mpr (Or.inr (List.mem_append.mpr (Or.inr (ih h))))
      · simp only [dupGeoms, hc, if_false, subElemsList_cons]
        exact List.mem_append.mpr (Or.inr (ih h))

mutual

theorem mem_visit_elem : ∀ (e b : Element), b ∈ subElems e → b.tag ≠ "geom" →
    visitElem b ∈ subElems (visitElem e)
  | .mk t a cs, b, hb, hg => by
    rw [subElems_def] at hb
    rcases List.mem_cons.mp hb with h | h
    · rw [h]
      exact self_mem_subElems _
    · have h1 := mem_visit_list cs b h hg
      by_cases ht : t = "body"
      · have hv : visitElem (Element.mk t a cs) =
            Element.mk t a (dupGeoms (visitList cs)) := by
          simp [visitElem, ht]
        rw [hv, subElems_def]
        refine List.mem_cons_of_mem _ ?_
        exact mem_subList_dupGeoms _ _ h1 (by rw [visitElem_tag]; exact hg)
      · have hv : visitElem (Element.mk t a cs) =
            Element.mk t a (visitList cs) := by
          simp [visitElem, ht]
        rw [hv, subElems_def]
        exact List.mem_cons_of_mem _ h1

theorem mem_visit_list : ∀ (cs : List Element) (b : Element),
    b ∈ subElemsList cs → b.tag ≠ "geom" →
    visitElem b ∈ subElemsList (visitList cs)
  | [], b, hb, _ => by simp at hb
  | c :: cs, b, hb, hg => by
    rcases List.mem_append.mp hb with h | h
    · exact List.mem_append.mpr (Or.inl (mem_visit_elem c b h hg))
    · exact List.mem_append.mpr (Or.inr (mem_visit_list cs b h hg))

end

theorem dupGeoms_split : ∀ (cs : List Element) (g : Element), g ∈ cs →
    g.tag = "geom" →
    ∃ l1 l2, dupGeoms cs =
      l1 ++ (g.set "class" (some "visualgeom")) :: mkVisualDup g :: l2 := by
  intro cs
  induction cs with
  | nil => intro g hg _; simp at hg
  | cons c rest ih =>
    intro g hg htag
    rcases List.mem_cons.mp hg with h | h
    · subst h
      exact ⟨[], dupGeoms rest, by simp [dupGeoms, htag]⟩
    · obtain ⟨l1, l2, hsplit⟩ := ih g h htag
      by_cases hc : c.tag = "geom"
      · exact ⟨c.set "class" (some "visualgeom") :: mkVisualDup c :: l1, l2,
          by simp [dupGeoms, hc, hsplit]⟩
      · exact ⟨c :: l1, l2, by simp [dupGeoms, hc, hsplit]⟩

theorem attrLookup_attribSet_same (a : List (String × Option String))
    (k : String) (v : Option String) :
    attrLookup (attribSet a k v) k = some v := by
  induction a with
  | nil => simp [attribSet, attrLookup]
  | cons p rest ih =>
    obtain ⟨k0, v0⟩ := p
    by_cases h : k0 = k <;> simp [attribSet, attrLookup, h, ih]

theorem attrLookup_attribSet_other (a : List (String × Option String))
    (k k2 : String) (v : Option String) (hne : k2 ≠ k) :
    attrLookup (attribSet a k v) k2 = attrLookup a k2 := by
  have hne2 : ¬(k = k2) := fun h => hne h.symm
  induction a with
  | nil =>
    simp only [attribSet, attrLookup]
    rw [if_neg hne2]
  | cons p rest ih =>
    obtain ⟨k0, v0⟩ := p
    by_cases h : k0 = k
    · subst h
      simp only [attribSet, if_pos rfl, attrLookup]
      rw [if_neg hne2, if_neg hne2]
    · simp only [attribSet, h, if_false, attrLookup]
      by_cases h2 : k0 = k2
      · rw [if_pos h2, if_pos h2]
      · rw [if_neg h2, if_neg h2]
        exact ih

theorem Element.get_set_same (e : Element) (k : String) (v : Option String) :
    (e.set k v).get k = v := by
  unfold Element.get Element.set
  simp [attrLookup_attribSet_same]

theorem Element.get_set_other (e : Element) (k k2 : String) (v : Option String)
    (hne : k2 ≠ k) : (e.set k v).get k2 = e.get k2 := by
  unfold Element.get Element.set
  simp [attrLookup_attribSet_other _ _ _ _ hne]

@[simp]
theorem appendKids_tag (e : Element) (ks : List Element) :
    (appendKids e ks).tag = e.tag := rfl

@[simp]
theorem appendKids_attrib (e : Element) (ks : List Element) :
    (appendKids e ks).attrib = e.attrib := rfl

@[simp]
theorem appendKids_children (e : Element) (ks : List Element) :
    (appendKids e ks).children = e.children ++ ks := rfl

theorem subElemsList_append_eq (l1 l2 : List Element) :
    subElemsList (l1 ++ l2) = subElemsList l1 ++ subElemsList l2 := by
  induction l1 with
  | nil => rfl
  | cons c cs ih => simp [ih]

theorem mem_subElems_appendKids (x y : Element) (ks : List Element)
    (hy : y ∈ subElems x) (hne : y.tag ≠ x.tag) :
    y ∈ subElems (appendKids x ks) := by
  rw [subElems_def] at hy ⊢
  rcases List.mem_cons.mp hy with h | h
  · exact absurd (congrArg Element.tag h) hne
  · refine List.mem_cons_of_mem _ ?_
    rw [appendKids_children, subElemsList_append_eq]
    exact List.mem_append.mpr (Or.inl h)

theorem mem_sub_mapFirst_found (p : Element → Bool) (f : Element → Element)
    (l : List Element) (x b : Element)
    (hfind : List.find? p l = some x)
    (hf : b ∈ subElems x → b ∈ subElems (f x))
    (hb : b ∈ subElemsList l) :
    b ∈ subElemsList (mapFirst p f l) := by
  induction l with
  | nil => simp at hb
  | cons c cs ih =>
    by_cases hc : p c
    · have hx : c = x := by
        rw [List.find?_cons_of_pos _ hc] at hfind
        simpa using hfind
      subst hx
      simp only [mapFirst, hc, if_true, subElemsList_cons]
      rcases List.mem_append.mp hb with h | h
      · exact List.mem_append.mpr (Or.inl (hf h))
      · exact List.mem_append.mpr (Or.inr h)
    · have hb2 : p c = false := by simpa using hc
      rw [List.find?_cons_of_neg _ hc] at hfind
      simp only [mapFirst, hb2, Bool.false_eq_true, if_false, subElemsList_cons]
      rcases List.mem_append.mp hb with h | h
      · exact List.mem_append.mpr (Or.inl h)
      · exact List.mem_append.mpr (Or.inr (ih hfind h))

theorem mem_sub_mapFirst_nofind (p : Element → Bool) (f : Element → Element)
    (l : List Element) (b : Element)
    (hfind : List.find? p l = none)
    (hb : b ∈ subElemsList l) :
    b ∈ subElemsList (mapFirst p f l) := by
  induction l with
  | nil => simp at hb
  | cons c cs ih =>
    rcases hfc : p c with hv | hv
    · rw [List.find?_cons_of_neg _ (by simp [hfc])] at hfind
      simp only [mapFirst, hfc, Bool.false_eq_true, if_false, subElemsList_cons]
      rcases List.mem_append.mp hb with h | h
      · exact List.mem_append.mpr (Or.inl h)
      · exact List.mem_append.mpr (Or.inr (ih hfind h))
    · rw [List.find?_cons_of_pos _ hfc] at hfind
      simp at hfind

theorem mem_sub_insertPy (n : ℕ) (x b : Element) (l : List Element)
    (hb : b ∈ subElemsList l) :
    b ∈ subElemsList (insertPy n x l) := by
  unfold insertPy
  rw [subElemsList_append_eq, subElemsList_cons]
  have : b ∈ subElemsList (List.take n l) ++ subElemsList (List.drop n l) := by
    rw [← subElemsList_append_eq, List.take_append_drop]
    exact hb
  rcases List.mem_append.mp this with h | h
  · exact List.mem_append.mpr (Or.inl h)
  · exact List.mem_append.mpr (Or.inr (List.mem_append.mpr (Or.inr h)))

theorem beq_tag_eq (c : Element) (t : String) (h : (c.tag == t) = true) :
    c.tag = t := by
  simpa using h

theorem adaptWorld_eq_floor (root a0 wb : Element)
    (hfa : root.findDirect "asset" = some a0)
    (hfw : List.find? (fun c => c.tag == "worldbody")
      (assetStepList root.children) = some wb) :
    adaptWorld true false false root =
      some (Element.mk root.tag root.attrib
        (visitList (surgeryList true wb (assetStepList root.children)))) := by
  have h2 : (Element.mk root.tag root.attrib
      (mapFirst (fun c => c.tag == "asset")
        (fun asset => appendKids asset [texplaneEl, matplaneEl, visualgeomMatEl])
        root.children)).findDirect "worldbody" = some wb := hfw
  simp only [adaptWorld, eq_self_iff_true, if_true, hfa, h2]
  rfl

theorem adaptWorld_eq_nofloor (root wb : Element)
    (hfw : List.find? (fun c => c.tag == "worldbody") root.children = some wb) :
    adaptWorld false false false root =
      some (Element.mk root.tag root.attrib
        (visitList (surgeryList false wb root.children))) := by
  have hfd : root.findDirect "worldbody" = some wb := hfw
  simp only [adaptWorld, Bool.false_eq_true, if_false, hfd]
  rfl

theorem surgery_find_worldbody (af : Bool) (wb : Element) (l : List Element)
    (hfw : List.find? (fun c => c.tag == "worldbody") l = some wb) :
    List.find? (fun c => c.tag == "worldbody") (surgeryList af wb l) =
      some (Element.mk wb.tag wb.attrib (wbReplaceKids af wb)) := by
  unfold surgeryList
  rw [find?_insertPy _ _ _ _ (by rfl)]
  rw [find?_insertPy _ _ _ _ (by rfl)]
  rw [find?_mapFirst_disjoint]
  · rw [find?_append_left]
    exact find?_mapFirst_self _ _ _ _ hfw
      (by have htag := List.find?_some hfw; simpa using htag)
  · intro x hx
    rw [beq_tag_eq x "sensor" hx]
    rfl
  · intro x hx
    rw [show (appendKids x [framequatEl, gyroEl]).tag = x.tag from rfl,
      beq_tag_eq x "sensor" hx]
    rfl

theorem mem_mapFirst (p : Element → Bool) (f : Element → Element)
    (l : List Element) (y : Element) (hy : y ∈ mapFirst p f l) :
    y ∈ l ∨ ∃ x ∈ l, y = f x := by
  induction l with
  | nil => simp [mapFirst] at hy
  | cons c cs ih =>
    by_cases hc : p c
    · simp only [mapFirst, hc, if_true] at hy
      rcases List.mem_cons.mp hy with h | h
      · exact Or.inr ⟨c, List.mem_cons_self c cs, h⟩
      · exact Or.inl (List.mem_cons_of_mem c h)
    · have hb : p c = false := by simpa using hc
      simp only [mapFirst, hb, Bool.false_eq_true, if_false] at hy
      rcases List.mem_cons.mp hy with h | h
      · exact Or.inl (h ▸ List.mem_cons_self c cs)
      · rcases ih h with h2 | ⟨x, hx, hfx⟩
        · exact Or.inl (List.mem_cons_of_mem c h2)
        · exact Or.inr ⟨x, List.mem_cons_of_mem c hx, hfx⟩

theorem surgery_find_actuator (af : Bool) (wb : Element) (l : List Element)
    (hl : ∀ c ∈ l, (c.tag == "actuator") = false) :
    List.find? (fun c => c.tag == "actuator") (surgeryList af wb l) =
      some actuatorSection := by
  unfold surgeryList
  rw [find?_insertPy _ _ _ _ (by rfl)]
  rw [find?_insertPy _ _ _ _ (by rfl)]
  rw [find?_mapFirst_disjoint]
  · have hnone : List.find? (fun c => c.tag == "actuator")
        (mapFirst (fun c => c.tag == "worldbody")
          (fun w => Element.mk w.tag w.attrib (wbReplaceKids af wb)) l) = none := by
      rw [List.find?_eq_none]
      intro x hx
      rcases mem_mapFirst _ _ _ _ hx with h | ⟨y, hy, hfy⟩
      · simp [hl x h]
      · subst hfy
        simp only [Element.tag_mk]
        simp [hl y hy]
    rw [List.find?_append, hnone]
    rfl
  · intro x hx
    rw [beq_tag_eq x "sensor" hx]
    rfl
  · intro x hx
    rw [show (appendKids x [framequatEl, gyroEl]).tag = x.tag from rfl,
      beq_tag_eq x "sensor" hx]
    rfl

theorem surgery_find_sensor (af : Bool) (wb : Element) (l : List Element)
    (hl : ∀ c ∈ l, (c.tag == "sensor") = false) :
    List.find? (fun c => c.tag == "sensor") (surgeryList af wb l) =
      some (appendKids sensorSection [framequatEl, gyroEl]) := by
  unfold surgeryList
  rw [find?_insertPy _ _ _ _ (by rfl)]
  rw [find?_insertPy _ _ _ _ (by rfl)]
  have hnone : List.find? (fun c => c.tag == "sensor")
      (mapFirst (fun c => c.tag == "worldbody")
        (fun w => Element.mk w.tag w.attrib (wbReplaceKids af wb)) l) = none := by
    rw [List.find?_eq_none]
    intro x hx
    rcases mem_mapFirst _ _ _ _ hx with h | ⟨y, hy, hfy⟩
    · simp [hl x h]
    · subst hfy
      simp only [Element.tag_mk]
      simp [hl y hy]
  have hbase : List.find? (fun c => c.tag == "sensor")
      (mapFirst (fun c => c.tag == "worldbody")
        (fun w => Element.mk w.tag w.attrib (wbReplaceKids af wb)) l
        ++ [actuatorSection, sensorSection]) = some sensorSection := by
    rw [List.find?_append, hnone]
    rfl
  exact find?_mapFirst_self _ _ _ _ hbase (by rfl)

theorem mem_sub_wbReplace (af : Bool) (wb b : Element)
    (hb : b ∈ subElemsList wb.children) :
    b ∈ subElemsList (wbReplaceKids af wb) := by
  have hrb : b ∈ subElems (appendKids rootBodyBase wb.children) := by
    rw [subElems_def]
    refine List.mem_cons_of_mem _ ?_
    rw [appendKids_children, subElemsList_append_eq]
    exact List.mem_append.mpr (Or.inr hb)
  have hmem : appendKids rootBodyBase wb.children ∈ wbReplaceKids af wb := by
    cases af <;> simp [wbReplaceKids]
  exact (mem_subElemsList_iff _ _).mpr ⟨_, hmem, hrb⟩

theorem surgery_mem (af : Bool) (wb : Element) (l : List Element) (b : Element)
    (hfw : List.find? (fun c => c.tag == "worldbody") l = some wb)
    (hb : b ∈ subElemsList l) (ht : b.tag = "body") :
    b ∈ subElemsList (surgeryList af wb l) := by
  unfold surgeryList
  apply mem_sub_insertPy
  apply mem_sub_insertPy
  have step1 : b ∈ subElemsList (mapFirst (fun c => c.tag == "worldbody")
      (fun w => Element.mk w.tag w.attrib (wbReplaceKids af wb)) l) := by
    refine mem_sub_mapFirst_found _ _ _ _ _ hfw ?_ hb
    intro h
    rw [subElems_def] at h
    rcases List.mem_cons.mp h with h2 | h2
    · have := beq_tag_eq wb "worldbody" (by simpa using List.find?_some hfw)
      rw [h2] at ht
      rw [ht] at this
      exact absurd this (by decide)
    · rw [subElems_def]
      exact List.mem_cons_of_mem _ (mem_sub_wbReplace af wb b h2)
  have step2 : b ∈ subElemsList (mapFirst (fun c => c.tag == "worldbody")
      (fun w => Element.mk w.tag w.attrib (wbReplaceKids af wb)) l
      ++ [actuatorSection, sensorSection]) := by
    rw [subElemsList_append_eq]
    exact List.mem_append.mpr (Or.inl step1)
  rcases hfs : List.find? (fun c => c.tag == "sensor")
      (mapFirst (fun c => c.tag == "worldbody")
        (fun w => Element.mk w.tag w.attrib (wbReplaceKids af wb)) l
        ++ [actuatorSection, sensorSection]) with _ | x
  · exact mem_sub_mapFirst_nofind _ _ _ _ hfs step2
  · refine mem_sub_mapFirst_found _ _ _ _ _ hfs ?_ step2
    intro h
    refine mem_subElems_appendKids _ _ _ h ?_
    have := beq_tag_eq x "sensor" (by simpa using List.find?_some hfs)
    rw [ht, this]
    decide

theorem mapFirst_tags (p : Element → Bool) (f : Element → Element)
    (hf : ∀ x, (f x).tag = x.tag) (l : List Element) :
    List.map Element.tag (mapFirst p f l) = List.map Element.tag l := by
  induction l with
  | nil => rfl
  | cons c cs ih =>
    by_cases hc : p c
    · simp [mapFirst, hc, hf]
    · have hb : p c = false := by simpa using hc
      simp [mapFirst, hb, ih]

theorem adaptWorld_success (af : Bool) (root out : Element)
    (hrun : adaptWorld af false false root = some out) :
    ∃ wb l, root.findDirect "worldbody" = some wb ∧
      List.find? (fun c => c.tag == "worldbody") l = some wb ∧
      out = Element.mk root.tag root.attrib (visitList (surgeryList af wb l)) ∧
      List.map Element.tag l = List.map Element.tag root.children ∧
      (∀ b, b ∈ subElemsList root.children → b.tag = "body" →
        b ∈ subElemsList l) := by
  cases af with
  | false =>
    rcases hfw : root.findDirect "worldbody" with _ | wb
    · rw [show adaptWorld false false false root = none by
        simp [adaptWorld, hfw]] at hrun
      exact absurd hrun (by simp)
    · rw [adaptWorld_eq_nofloor root wb hfw] at hrun
      have hfw2 : List.find? (fun c => c.tag == "worldbody") root.children
          = some wb := hfw
      refine ⟨wb, root.children, rfl, hfw2, ?_, rfl, fun b hb _ => hb⟩
      exact (Option.some_injective _ hrun).symm
  | true =>
    rcases hfa : root.findDirect "asset" with _ | a0
    · rw [show adaptWorld true false false root = none by
        simp [adaptWorld, hfa]] at hrun
      exact absurd hrun (by simp)
    · rcases hfw : List.find? (fun c => c.tag == "worldbody")
          (assetStepList root.children) with _ | wb
      · have : adaptWorld true false false root = none := by
          simp only [adaptWorld, eq_self_iff_true, if_true, hfa]
          have h2 : (Element.mk root.tag root.attrib
              (mapFirst (fun c => c.tag == "asset")
                (fun asset => appendKids asset
                  [texplaneEl, matplaneEl, visualgeomMatEl])
                root.children)).findDirect "worldbody" = none := hfw
          simp only [h2]
        rw [this] at hrun
        exact absurd hrun (by simp)
      · have htageq : ∀ x : Element, ((x.tag == "asset") = true) →
            ((x.tag == "worldbody") = false) := by
          intro x hx
          rw [beq_tag_eq x "asset" hx]
          rfl
        have hpres : List.find? (fun c => c.tag == "worldbody")
            (assetStepList root.children) =
            List.find? (fun c => c.tag == "worldbody") root.children := by
          unfold assetStepList
          exact find?_mapFirst_disjoint _ _ _ htageq
            (fun (x : Element) hx => by
              rw [appendKids_tag]
              exact htageq x hx) _
        have hfw0 : root.findDirect "worldbody" = some wb := by
          rw [Element.findDirect, ← hpres]
          exact hfw
        rw [adaptWorld_eq_floor root a0 wb hfa hfw] at hrun
        refine ⟨wb, assetStepList root.children, hfw0, hfw, ?_, ?_, ?_⟩
        · exact (Option.some_injective _ hrun).symm
        · unfold assetStepList
          exact mapFirst_tags (fun c => c.tag == "asset")
            (fun asset => appendKids asset [texplaneEl, matplaneEl, visualgeomMatEl])
            (fun x => appendKids_tag x _) root.children
        · intro b hb ht
          unfold assetStepList
          have hfa2 : List.find? (fun c => c.tag == "asset") root.children
              = some a0 := hfa
          refine mem_sub_mapFirst_found _ _ _ _ _ hfa2 ?_ hb
          intro h
          refine mem_subElems_appendKids _ _ _ h ?_
          have := beq_tag_eq a0 "asset" (by simpa using List.find?_some hfa2)
          rw [ht, this]
          decide

theorem visitElem_ground : visitElem groundGeom = groundGeom := rfl

theorem visitElem_light4 : visitElem light4 = light4 := rfl

theorem visitElem_light5 : visitElem light5 = light5 := rfl

theorem dupGeoms_nongeom_cons (c : Element) (cs : List Element)
    (h : c.tag ≠ "geom") : dupGeoms (c :: cs) = c :: dupGeoms cs := by
  simp [dupGeoms, h]

theorem visit_root_body (items : List Element) :
    visitElem (appendKids rootBodyBase items) =
      Element.mk "body" rootBodyBase.attrib
        ([mkSlideJoint "root_x" 1 0 0, mkSlideJoint "root_y" 0 1 0,
          mkSlideJoint "root_z" 0 0 1, mkBallJoint "root_ball", imuSite] ++
          dupGeoms (visitList items)) := by
  have h1 : appendKids rootBodyBase items =
      Element.mk "body" rootBodyBase.attrib
        ([mkSlideJoint "root_x" 1 0 0, mkSlideJoint "root_y" 0 1 0,
          mkSlideJoint "root_z" 0 0 1, mkBallJoint "root_ball", imuSite] ++ items) := rfl
  rw [h1]
  have h2 : visitElem (Element.mk "body" rootBodyBase.attrib
      ([mkSlideJoint "root_x" 1 0 0, mkSlideJoint "root_y" 0 1 0,
        mkSlideJoint "root_z" 0 0 1, mkBallJoint "root_ball", imuSite] ++ items)) =
      Element.mk "body" rootBodyBase.attrib
        (dupGeoms (visitList ([mkSlideJoint "root_x" 1 0 0, mkSlideJoint "root_y" 0 1 0,
          mkSlideJoint "root_z" 0 0 1, mkBallJoint "root_ball", imuSite] ++ items))) := by
    simp [visitElem]
  rw [h2, visitList_append]
  have h3 : visitList [mkSlideJoint "root_x" 1 0 0, mkSlideJoint "root_y" 0 1 0,
      mkSlideJoint "root_z" 0 0 1, mkBallJoint "root_ball", imuSite] =
      [mkSlideJoint "root_x" 1 0 0, mkSlideJoint "root_y" 0 1 0,
       mkSlideJoint "root_z" 0 0 1, mkBallJoint "root_ball", imuSite] := rfl
  rw [h3]
  simp only [List.cons_append, List.nil_append]
  rw [dupGeoms_nongeom_cons _ _ (by decide), dupGeoms_nongeom_cons _ _ (by decide),
    dupGeoms_nongeom_cons _ _ (by decide), dupGeoms_nongeom_cons _ _ (by decide),
    dupGeoms_nongeom_cons _ _ (by decide)]

theorem visit_wb_image (af : Bool) (wb : Element) (htag : wb.tag = "worldbody") :
    visitElem (Element.mk wb.tag wb.attrib (wbReplaceKids af wb)) =
      Element.mk wb.tag wb.attrib
        ((if af = true then [groundGeom] else []) ++
          [light4, light5, visitElem (appendKids rootBodyBase wb.children)]) := by
  have h1 : visitElem (Element.mk wb.tag wb.attrib (wbReplaceKids af wb)) =
      Element.mk wb.tag wb.attrib (visitList (wbReplaceKids af wb)) := by
    rw [htag]
    simp [visitElem]
  rw [h1]
  unfold wbReplaceKids
  cases af
  · simp only [Bool.false_eq_true, if_false, List.nil_append]
    rfl
  · simp only [if_pos]
    rfl

theorem out_find_worldbody (af : Bool) (root out wb : Element) (l : List Element)
    (hout : out = Element.mk root.tag root.attrib (visitList (surgeryList af wb l)))
    (hfw : List.find? (fun c => c.tag == "worldbody") l = some wb) :
    out.findDirect "worldbody" =
      some (visitElem (Element.mk wb.tag wb.attrib (wbReplaceKids af wb))) := by
  rw [hout]
  show List.find? (fun c => c.tag == "worldbody") (visitList (surgeryList af wb l)) = _
  rw [find?_visitList, surgery_find_worldbody af wb l hfw]
  rfl

/-- C7: adapt_world inserts two directional lights with direction
(0,0,-1), at heights 4 and 5.0, at the front of the worldbody (in that
order), and when `add_floor` is set the first worldbody child is instead
the plane geom "ground" with material "matplane", preceding both
lights. -/
theorem C7_lights_floor (af : Bool) (root out : Element)
    (hrun : adaptWorld af false false root = some out) :
    ∃ wb2 rb, out.findDirect "worldbody" = some wb2 ∧
      wb2.children = (if af = true then [groundGeom] else []) ++ [light4, light5, rb] ∧
      light4.tag = "light" ∧ light4.get "directional" = some "true" ∧
      light4.get "dir" = some (v3 0 0 (-1)) ∧ light4.get "pos" = some (v3 0 0 4) ∧
      light5.tag = "light" ∧ light5.get "directional" = some "true" ∧
      light5.get "dir" = some (v3 0 0 (-1)) ∧ light5.get "pos" = some (v3 0 0 5.0) ∧
      (af = true → wb2.children.head? = some groundGeom ∧ groundGeom.tag = "geom" ∧
        groundGeom.get "type" = some "plane" ∧ groundGeom.get "name" = some "ground" ∧
        groundGeom.get "material" = some "matplane") := by
  obtain ⟨wb, l, hfw0, hfw, hout, htags, hmem⟩ := adaptWorld_success af root out hrun
  have htag : wb.tag = "worldbody" :=
    beq_tag_eq _ _ (by simpa using List.find?_some hfw)
  have hfind := out_find_worldbody af root out wb l hout hfw
  rw [visit_wb_image af wb htag] at hfind
  refine ⟨_, visitElem (appendKids rootBodyBase wb.children), hfind, ?_,
    rfl, rfl, rfl, rfl, rfl, rfl, rfl, rfl, ?_⟩
  · rfl
  · intro haf
    subst haf
    refine ⟨?_, rfl, rfl, rfl, rfl⟩
    simp

theorem mem_dupGeoms_keep (cs : List Element) (x : Element) (hx : x ∈ cs)
    (ht : x.tag ≠ "geom") : x ∈ dupGeoms cs := by
  induction cs with
  | nil => simp at hx
  | cons c rest ih =>
    rcases List.mem_cons.mp hx with h | h
    · subst h
      rw [dupGeoms_nongeom_cons _ _ ht]
      exact List.mem_cons_self _ _
    · by_cases hc : c.tag = "geom"
      · simp only [dupGeoms, hc, if_true]
        exact List.mem_cons_of_mem _ (List.mem_cons_of_mem _ (ih h))
      · simp only [dupGeoms, hc, if_false]
        exact List.mem_cons_of_mem _ (ih h)

theorem mem_dupGeoms_cases (cs : List Element) (x : Element)
    (hx : x ∈ dupGeoms cs) : x.tag = "geom" ∨ x ∈ cs := by
  induction cs with
  | nil => simp [dupGeoms] at hx
  | cons c rest ih =>
    by_cases hc : c.tag = "geom"
    · simp only [dupGeoms, hc, if_true] at hx
      rcases List.mem_cons.mp hx with h | h
      · subst h
        exact Or.inl (by rw [Element.set_tag]; exact hc)
      · rcases List.mem_cons.mp h with h2 | h2
        · subst h2
          exact Or.inl rfl
        · rcases ih h2 with h3 | h3
          · exact Or.inl h3
          · exact Or.inr (List.mem_cons_of_mem _ h3)
    · simp only [dupGeoms, hc, if_false] at hx
      rcases List.mem_cons.mp hx with h | h
      · exact Or.inr (h ▸ List.mem_cons_self _ _)
      · rcases ih h with h3 | h3
        · exact Or.inl h3
        · exact Or.inr (List.mem_cons_of_mem _ h3)

/-- C4: after adapt_world, every former child of the worldbody sits (as
its visual-pass image) under a newly created body named "root" at
position (0,0,1.0) with quaternion (1,0,0,0), and — provided the
worldbody had no direct joint or site children of its own — that body
contains exactly three unlimited slide joints root_x, root_y, root_z
along the x, y, z axes, exactly one unlimited ball joint root_ball, and
exactly one site, named "imu". -/
theorem C4_root_body (af : Bool) (root out wb : Element)
    (hrun : adaptWorld af false false root = some out)
    (hwb : root.findDirect "worldbody" = some wb)
    (hkids : ∀ c ∈ wb.children, c.tag ≠ "joint" ∧ c.tag ≠ "site") :
    ∃ wb2 rb, out.findDirect "worldbody" = some wb2 ∧ rb ∈ wb2.children ∧
      rb.tag = "body" ∧ rb.get "name" = some "root" ∧
      rb.get "pos" = some (v3 0 0 STOMPY_HEIGHT) ∧
      rb.get "quat" = some (v4 1 0 0 0) ∧
      (∀ c ∈ wb.children,
        (c.tag ≠ "geom" → visitElem c ∈ rb.children) ∧
        (c.tag = "geom" →
          (visitElem c).set "class" (some "visualgeom") ∈ rb.children)) ∧
      rb.children.filter
          (fun c => c.tag == "joint" && (c.get "type" == some "slide"))
        = [mkSlideJoint "root_x" 1 0 0, mkSlideJoint "root_y" 0 1 0,
           mkSlideJoint "root_z" 0 0 1] ∧
      rb.children.filter
          (fun c => c.tag == "joint" && (c.get "type" == some "ball"))
        = [mkBallJoint "root_ball"] ∧
      rb.children.filter (fun c => c.tag == "site") = [imuSite] ∧
      (mkSlideJoint "root_x" 1 0 0).get "axis" = some (v3 1 0 0) ∧
      (mkSlideJoint "root_y" 0 1 0).get "axis" = some (v3 0 1 0) ∧
      (mkSlideJoint "root_z" 0 0 1).get "axis" = some (v3 0 0 1) ∧
      (mkSlideJoint "root_x" 1 0 0).get "limited" = some "false" ∧
      (mkBallJoint "root_ball").get "limited" = some "false" ∧
      (mkSlideJoint "root_x" 1 0 0).get "name" = some "root_x" ∧
      (mkSlideJoint "root_y" 0 1 0).get "name" = some "root_y" ∧
      (mkSlideJoint "root_z" 0 0 1).get "name" = some "root_z" ∧
      (mkBallJoint "root_ball").get "name" = some "root_ball" ∧
      imuSite.get "name" = some "imu" := by
  obtain ⟨wb1, l, hfw0, hfw, hout, htags, hmem⟩ := adaptWorld_success af root out hrun
  have hwbeq : wb1 = wb := by
    rw [hwb] at hfw0
    exact (Option.some_injective _ hfw0).symm
  subst hwbeq
  have htag : wb1.tag = "worldbody" :=
    beq_tag_eq _ _ (by simpa using List.find?_some hfw)
  have hfind := out_find_worldbody af root out wb1 l hout hfw
  rw [visit_wb_image af wb1 htag] at hfind
  rw [visit_root_body wb1.children] at hfind
  refine ⟨_, Element.mk "body" rootBodyBase.attrib
      ([mkSlideJoint "root_x" 1 0 0, mkSlideJoint "root_y" 0 1 0,
        mkSlideJoint "root_z" 0 0 1, mkBallJoint "root_ball", imuSite] ++
        dupGeoms (visitList wb1.children)),
    hfind, ?_, rfl, rfl, rfl, rfl, ?_, ?_, ?_, ?_,
    rfl, rfl, rfl, rfl, rfl, rfl, rfl, rfl, rfl, rfl⟩
  · simp
  · intro c hc
    constructor
    · intro hcg
      refine List.mem_append.mpr (Or.inr ?_)
      refine mem_dupGeoms_keep _ _ ?_ (by rw [visitElem_tag]; exact hcg)
      rw [mem_visitList]
      exact ⟨c, hc, rfl⟩
    · intro hcg
      refine List.mem_append.mpr (Or.inr ?_)
      obtain ⟨l1, l2, hsplit⟩ := dupGeoms_split (visitList wb1.children)
        (visitElem c) ((mem_visitList _ _).mpr ⟨c, hc, rfl⟩)
        (by rw [visitElem_tag]; exact hcg)
      rw [hsplit]
      simp
  · rw [Element.children_mk, List.filter_append]
    have h1 : List.filter
        (fun c => c.tag == "joint" && (c.get "type" == some "slide"))
        [mkSlideJoint "root_x" 1 0 0, mkSlideJoint "root_y" 0 1 0,
         mkSlideJoint "root_z" 0 0 1, mkBallJoint "root_ball", imuSite]
        = [mkSlideJoint "root_x" 1 0 0, mkSlideJoint "root_y" 0 1 0,
           mkSlideJoint "root_z" 0 0 1] := rfl
    have h2 : List.filter
        (fun c => c.tag == "joint" && (c.get "type" == some "slide"))
        (dupGeoms (visitList wb1.children)) = [] := by
      rw [List.filter_eq_nil_iff]
      intro x hx
      rcases mem_dupGeoms_cases _ _ hx with h | h
      · simp [h]
      · obtain ⟨c, hc, hvc⟩ := (mem_visitList _ _).mp h
        subst hvc
        have := (hkids c hc).1
        simp only [visitElem_tag]
        simp [this]
    rw [h1, h2, List.append_nil]
  · rw [Element.children_mk, List.filter_append]
    have h1 : List.filter
        (fun c => c.tag == "joint" && (c.get "type" == some "ball"))
        [mkSlideJoint "root_x" 1 0 0, mkSlideJoint "root_y" 0 1 0,
         mkSlideJoint "root_z" 0 0 1, mkBallJoint "root_ball", imuSite]
        = [mkBallJoint "root_ball"] := rfl
    have h2 : List.filter
        (fun c => c.tag == "joint" && (c.get "type" == some "ball"))
        (dupGeoms (visitList wb1.children)) = [] := by
      rw [List.filter_eq_nil_iff]
      intro x hx
      rcases mem_dupGeoms_cases _ _ hx with h | h
      · simp [h]
      · obtain ⟨c, hc, hvc⟩ := (mem_visitList _ _).mp h
        subst hvc
        have := (hkids c hc).1
        simp only [visitElem_tag]
        simp [this]
    rw [h1, h2, List.append_nil]
  · rw [Element.children_mk, List.filter_append]
    have h1 : List.filter (fun c => c.tag == "site")
        [mkSlideJoint "root_x" 1 0 0, mkSlideJoint "root_y" 0 1 0,
         mkSlideJoint "root_z" 0 0 1, mkBallJoint "root_ball", imuSite]
        = [imuSite] := rfl
    have h2 : List.filter (fun c => c.tag == "site")
        (dupGeoms (visitList wb1.children)) = [] := by
      rw [List.filter_eq_nil_iff]
      intro x hx
      rcases mem_dupGeoms_cases _ _ hx with h | h
      · simp [h]
      · obtain ⟨c, hc, hvc⟩ := (mem_visitList _ _).mp h
        subst hvc
        have := (hkids c hc).2
        simp only [visitElem_tag]
        simp [this]
    rw [h1, h2, List.append_nil]

theorem motorJoints_mem (n : String) :
    n ∈ motorJoints ↔
      n ∈ DEFAULT_LIMITS.map Prod.fst ∧ n ∈ DEFAULT_STANDING.map Prod.fst := by
  unfold motorJoints
  rw [List.mem_filter]
  constructor
  · rintro ⟨h1, h2⟩
    refine ⟨h1, ?_⟩
    simpa using h2
  · rintro ⟨h1, h2⟩
    refine ⟨h1, ?_⟩
    simpa using h2

theorem motorJoints_nodup : motorJoints.Nodup := by decide

theorem motor_filter_count (js : List String) (n : String) :
    (List.filter (fun m => m.get "name" == some n) (js.map mkMotor)).length =
      js.count n := by
  induction js with
  | nil => rfl
  | cons j rest ih =>
    have hbeq : ((mkMotor j).get "name" == some n) = (j == n) := rfl
    simp only [List.map_cons, List.filter_cons, hbeq, List.count_cons]
    cases h : (j == n)
    · simp [h, ih]
    · simp [h, ih]

theorem visit_actuator : visitElem actuatorSection = actuatorSection := rfl

theorem visit_sensor :
    visitElem (appendKids sensorSection [framequatEl, gyroEl]) =
      appendKids sensorSection [framequatEl, gyroEl] := rfl

theorem tags_transfer (l : List Element) (root : Element) (τ : String)
    (htags : List.map Element.tag l = List.map Element.tag root.children)
    (hroot : ∀ c ∈ root.children, c.tag ≠ τ) :
    ∀ c ∈ l, (c.tag == τ) = false := by
  intro c hc
  have h1 : c.tag ∈ List.map Element.tag l := List.mem_map_of_mem _ hc
  rw [htags] at h1
  obtain ⟨c2, hc2, htg⟩ := List.mem_map.mp h1
  have := hroot c2 hc2
  rw [← htg]
  simpa using this

/-- C5: for every joint name that is a key of both DEFAULT_LIMITS and
DEFAULT_STANDING — and for no other name — the actuator section of the
adapted tree contains exactly one motor with that name, attached to the
joint of the same name, with gear 1 and control range (-200, 200), and
the sensor section contains an actuator position, velocity, and force
sensor named name+"_p", name+"_v", name+"_f", each attached to that
actuator. (The root element is assumed to have no pre-existing direct
actuator or sensor child, so the sections are the ones the script
appends.) -/
theorem C5_motors_sensors (af : Bool) (root out : Element)
    (hrun : adaptWorld af false false root = some out)
    (hna : ∀ c ∈ root.children, c.tag ≠ "actuator")
    (hns : ∀ c ∈ root.children, c.tag ≠ "sensor") :
    ∃ act sens, out.findDirect "actuator" = some act ∧
      out.findDirect "sensor" = some sens ∧
      (∀ n : String,
        (act.children.filter (fun m => m.get "name" == some n)).length =
          (if n ∈ DEFAULT_LIMITS.map Prod.fst ∧ n ∈ DEFAULT_STANDING.map Prod.fst
           then 1 else 0)) ∧
      (∀ n ∈ motorJoints,
        mkMotor n ∈ act.children ∧ (mkMotor n).tag = "motor" ∧
        (mkMotor n).get "name" = some n ∧ (mkMotor n).get "joint" = some n ∧
        (mkMotor n).get "gear" = some (qs 1) ∧
        (mkMotor n).get "ctrlrange" = some (v2 (-200) 200) ∧
        mkActuatorpos n ∈ sens.children ∧ (mkActuatorpos n).tag = "actuatorpos" ∧
        (mkActuatorpos n).get "name" = some (n ++ "_p") ∧
        (mkActuatorpos n).get "actuator" = some n ∧
        mkActuatorvel n ∈ sens.children ∧ (mkActuatorvel n).tag = "actuatorvel" ∧
        (mkActuatorvel n).get "name" = some (n ++ "_v") ∧
        (mkActuatorvel n).get "actuator" = some n ∧
        mkActuatorfrc n ∈ sens.children ∧ (mkActuatorfrc n).tag = "actuatorfrc" ∧
        (mkActuatorfrc n).get "name" = some (n ++ "_f") ∧
        (mkActuatorfrc n).get "actuator" = some n) ∧
      (∀ n : String, n ∈ motorJoints ↔
        n ∈ DEFAULT_LIMITS.map Prod.fst ∧ n ∈ DEFAULT_STANDING.map Prod.fst) := by
  obtain ⟨wb, l, hfw0, hfw, hout, htags, hmem⟩ := adaptWorld_success af root out hrun
  have hact : out.findDirect "actuator" = some actuatorSection := by
    rw [hout]
    show List.find? (fun c => c.tag == "actuator")
      (visitList (surgeryList af wb l)) = _
    rw [find?_visitList,
      surgery_find_actuator af wb l (tags_transfer l root "actuator" htags hna)]
    simp [visit_actuator]
  have hsens : out.findDirect "sensor" =
      some (appendKids sensorSection [framequatEl, gyroEl]) := by
    rw [hout]
    show List.find? (fun c => c.tag == "sensor")
      (visitList (surgeryList af wb l)) = _
    rw [find?_visitList,
      surgery_find_sensor af wb l (tags_transfer l root "sensor" htags hns)]
    simp [visit_sensor]
  refine ⟨actuatorSection, appendKids sensorSection [framequatEl, gyroEl],
    hact, hsens, ?_, ?_, motorJoints_mem⟩
  · intro n
    have hchildren : actuatorSection.children = motorJoints.map mkMotor := rfl
    rw [hchildren, motor_filter_count]
    by_cases hn : n ∈ motorJoints
    · rw [List.count_eq_one_of_mem motorJoints_nodup hn,
        if_pos ((motorJoints_mem n).mp hn)]
    · rw [List.count_eq_zero_of_not_mem hn,
        if_neg (fun hc => hn ((motorJoints_mem n).mpr hc))]
  · intro n hn
    have hp : mkActuatorpos n ∈
        (appendKids sensorSection [framequatEl, gyroEl]).children := by
      show mkActuatorpos n ∈
        (motorJoints.map mkActuatorpos ++ motorJoints.map mkActuatorvel ++
          motorJoints.map mkActuatorfrc) ++ [framequatEl, gyroEl]
      refine List.mem_append.mpr (Or.inl ?_)
      refine List.mem_append.mpr (Or.inl ?_)
      exact List.mem_append.mpr (Or.inl (List.mem_map_of_mem _ hn))
    have hv : mkActuatorvel n ∈
        (appendKids sensorSection [framequatEl, gyroEl]).children := by
      show mkActuatorvel n ∈
        (motorJoints.map mkActuatorpos ++ motorJoints.map mkActuatorvel ++
          motorJoints.map mkActuatorfrc) ++ [framequatEl, gyroEl]
      refine List.mem_append.mpr (Or.inl ?_)
      refine List.mem_append.mpr (Or.inl ?_)
      exact List.mem_append.mpr (Or.inr (List.mem_map_of_mem _ hn))
    have hf : mkActuatorfrc n ∈
        (appendKids sensorSection [framequatEl, gyroEl]).children := by
      show mkActuatorfrc n ∈
        (motorJoints.map mkActuatorpos ++ motorJoints.map mkActuatorvel ++
          motorJoints.map mkActuatorfrc) ++ [framequatEl, gyroEl]
      refine List.mem_append.mpr (Or.inl ?_)
      exact List.mem_append.mpr (Or.inr (List.mem_map_of_mem _ hn))
    exact ⟨List.mem_map_of_mem _ hn, rfl, rfl, rfl, rfl, rfl,
      hp, rfl, rfl, rfl, hv, rfl, rfl, rfl, hf, rfl, rfl, rfl⟩

theorem mkVisualDup_get_type (g : Element) :
    (mkVisualDup g).get "type" = g.get "type" := rfl

theorem mkVisualDup_get_rgba (g : Element) :
    (mkVisualDup g).get "rgba" = g.get "rgba" := rfl

theorem mkVisualDup_get_mesh (g : Element) :
    (mkVisualDup g).get "mesh" = g.get "mesh" := rfl

theorem Element.get_eq (e : Element) (k : String) :
    e.get k =
      match attrLookup e.attrib k with
      | some v => v
      | none => none := rfl

theorem mkVisualDup_get_contype (g : Element) :
    (mkVisualDup g).get "contype" = some "0" := by
  have hA : attrLookup (mkVisualDup g).attrib "contype" = some (some "0") := by
    unfold mkVisualDup
    cases h1 : truthy (g.get "pos") <;> cases h2 : truthy (g.get "quat") <;>
      simp [attrLookup, h1, h2]
  rw [Element.get_eq, hA]

theorem mkVisualDup_get_conaffinity (g : Element) :
    (mkVisualDup g).get "conaffinity" = some "0" := by
  have hA : attrLookup (mkVisualDup g).attrib "conaffinity" = some (some "0") := by
    unfold mkVisualDup
    cases h1 : truthy (g.get "pos") <;> cases h2 : truthy (g.get "quat") <;>
      simp [attrLookup, h1, h2]
  rw [Element.get_eq, hA]

theorem mkVisualDup_get_group (g : Element) :
    (mkVisualDup g).get "group" = some "1" := by
  have hA : attrLookup (mkVisualDup g).attrib "group" = some (some "1") := by
    unfold mkVisualDup
    cases h1 : truthy (g.get "pos") <;> cases h2 : truthy (g.get "quat") <;>
      simp [attrLookup, h1, h2]
  rw [Element.get_eq, hA]

theorem mkVisualDup_get_density (g : Element) :
    (mkVisualDup g).get "density" = some "0" := by
  have hA : attrLookup (mkVisualDup g).attrib "density" = some (some "0") := by
    unfold mkVisualDup
    cases h1 : truthy (g.get "pos") <;> cases h2 : truthy (g.get "quat") <;>
      simp [attrLookup, h1, h2]
  rw [Element.get_eq, hA]

theorem mkVisualDup_get_pos_truthy (g : Element)
    (h : truthy (g.get "pos") = true) :
    (mkVisualDup g).get "pos" = g.get "pos" := by
  have hA : attrLookup (mkVisualDup g).attrib "pos" = some (g.get "pos") := by
    unfold mkVisualDup
    cases h2 : truthy (g.get "quat") <;> simp [attrLookup, h, h2]
  rw [Element.get_eq, hA]

theorem mkVisualDup_pos_absent (g : Element)
    (h : truthy (g.get "pos") = false) :
    attrLookup (mkVisualDup g).attrib "pos" = none := by
  unfold mkVisualDup
  cases h2 : truthy (g.get "quat") <;> simp [attrLookup, h, h2]

theorem mkVisualDup_get_quat_truthy (g : Element)
    (h : truthy (g.get "quat") = true) :
    (mkVisualDup g).get "quat" = g.get "quat" := by
  have hA : attrLookup (mkVisualDup g).attrib "quat" = some (g.get "quat") := by
    unfold mkVisualDup
    cases h1 : truthy (g.get "pos") <;> simp [attrLookup, h, h1]
  rw [Element.get_eq, hA]

theorem mkVisualDup_quat_absent (g : Element)
    (h : truthy (g.get "quat") = false) :
    attrLookup (mkVisualDup g).attrib "quat" = none := by
  unfold mkVisualDup
  cases h1 : truthy (g.get "pos") <;> simp [attrLookup, h, h1]

/-- C3 counterexample: in `c3Tree` the body's only geom has a `pos`
attribute present (with the empty string as value, which is falsy in
Python), yet the inserted visual duplicate carries no `pos` attribute at
all — refuting the claim that the duplicate carries the original's pos
attribute whenever it is present. -/
theorem C3_counterexample :
    attrLookup c3Geom.attrib "pos" = some (some "") ∧
    (adaptWorld true false false c3Tree).map (fun out =>
      ((((out.findDirect "worldbody").getD defaultE).children.getD 3 defaultE
        ).children.getD 5 defaultE).children.map
          (fun c => (c.tag, attrLookup c.attrib "pos")))
      = some [("geom", some (some "")), ("geom", none)] := by
  exact ⟨rfl, rfl⟩

/-- C3 (amended): for every body element of the input tree, adapt_world
sets the class of each pre-existing geom child to "visualgeom" and
inserts immediately after it a new childless geom with contype 0,
conaffinity 0, group 1, density 0, carrying the original's type, rgba,
and mesh attribute values, and its pos and quat attributes when those
are present WITH A NON-EMPTY STRING VALUE on the original (the code
tests Python truthiness of `geom.get`, so a pos or quat that is absent,
stored as None, or equal to "" is not copied). -/
theorem C3_amended_visual_geoms (af : Bool) (root out b : Element)
    (hrun : adaptWorld af false false root = some out)
    (hb : b ∈ subElemsList root.children) (htag : b.tag = "body") :
    visitElem b ∈ subElems out ∧ (visitElem b).tag = "body" ∧
    (visitElem b).attrib = b.attrib ∧
    (∀ g ∈ b.children, g.tag = "geom" →
      ∃ l1 l2 g2 d, (visitElem b).children = l1 ++ g2 :: d :: l2 ∧
        g2 = (visitElem g).set "class" (some "visualgeom") ∧
        g2.get "class" = some "visualgeom" ∧
        d.tag = "geom" ∧ d.children = [] ∧
        d.get "type" = g.get "type" ∧ d.get "rgba" = g.get "rgba" ∧
        d.get "mesh" = g.get "mesh" ∧
        d.get "contype" = some "0" ∧ d.get "conaffinity" = some "0" ∧
        d.get "group" = some "1" ∧ d.get "density" = some "0" ∧
        (truthy (g.get "pos") = true → d.get "pos" = g.get "pos") ∧
        (truthy (g.get "pos") = false → attrLookup d.attrib "pos" = none) ∧
        (truthy (g.get "quat") = true → d.get "quat" = g.get "quat") ∧
        (truthy (g.get "quat") = false → attrLookup d.attrib "quat" = none)) := by
  obtain ⟨wb, l, hfw0, hfw, hout, htags, hmem⟩ := adaptWorld_success af root out hrun
  refine ⟨?_, by rw [visitElem_tag]; exact htag, visitElem_attrib b, ?_⟩
  · have h1 : b ∈ subElemsList l := hmem b hb htag
    have h2 : b ∈ subElemsList (surgeryList af wb l) := surgery_mem af wb l b hfw h1 htag
    have h3 : visitElem b ∈ subElemsList (visitList (surgeryList af wb l)) :=
      mem_visit_list _ b h2 (by rw [htag]; decide)
    rw [hout, subElems_def]
    exact List.mem_cons_of_mem _ h3
  · intro g hg hgt
    have hvg : visitElem g ∈ visitList b.children := (mem_visitList _ _).mpr ⟨g, hg, rfl⟩
    obtain ⟨l1, l2, hsplit⟩ := dupGeoms_split (visitList b.children) (visitElem g)
      hvg (by rw [visitElem_tag]; exact hgt)
    refine ⟨l1, l2, (visitElem g).set "class" (some "visualgeom"),
      mkVisualDup (visitElem g), ?_, rfl, Element.get_set_same _ _ _, rfl, rfl,
      ?_, ?_, ?_, mkVisualDup_get_contype _, mkVisualDup_get_conaffinity _,
      mkVisualDup_get_group _, mkVisualDup_get_density _, ?_, ?_, ?_, ?_⟩
    · rw [visitElem_children_body b htag, hsplit]
    · rw [mkVisualDup_get_type, visitElem_get]
    · rw [mkVisualDup_get_rgba, visitElem_get]
    · rw [mkVisualDup_get_mesh, visitElem_get]
    · intro h
      rw [mkVisualDup_get_pos_truthy _ (by rw [visitElem_get]; exact h), visitElem_get]
    · intro h
      exact mkVisualDup_pos_absent _ (by rw [visitElem_get]; exact h)
    · intro h
      rw [mkVisualDup_get_quat_truthy _ (by rw [visitElem_get]; exact h), visitElem_get]
    · intro h
      exact mkVisualDup_quat_absent _ (by rw [visitElem_get]; exact h)

theorem serializeOkList_iff (l : List Element) :
    serializeOkList l = true ↔ ∀ c ∈ l, serializeOk c = true := by
  induction l with
  | nil => simp [serializeOkList]
  | cons c cs ih =>
    simp only [serializeOkList, Bool.and_eq_true, ih, List.mem_cons]
    constructor
    · rintro ⟨h1, h2⟩ x (rfl | hx)
      · exact h1
      · exact h2 x hx
    · intro h
      exact ⟨h c (Or.inl rfl), fun x hx => h x (Or.inr hx)⟩

theorem trmOkList_iff (w : Bool) (l : List Element) :
    trmOkList w l = true ↔ ∀ c ∈ l, trmOk w c = true := by
  induction l with
  | nil => simp [trmOkList]
  | cons c cs ih =>
    simp only [trmOkList, Bool.and_eq_true, ih, List.mem_cons]
    constructor
    · rintro ⟨h1, h2⟩ x (rfl | hx)
      · exact h1
      · exact h2 x hx
    · intro h
      exact ⟨h c (Or.inl rfl), fun x hx => h x (Or.inr hx)⟩

theorem serializeOk_mk_iff (t : String) (a : List (String × Option String))
    (cs : List Element) :
    serializeOk (.mk t a cs) = true ↔
      (a.all (fun p => p.2.isSome) = true ∧ serializeOkList cs = true) := by
  simp [serializeOk, Bool.and_eq_true]

theorem trmOk_mk_iff (w : Bool) (t : String) (a : List (String × Option String))
    (cs : List Element) :
    trmOk w (.mk t a cs) = true ↔
      ((t = "body" ∨ (w = true ∧ t = "worldbody")) → cs.all geomHasTRM = true) ∧
      trmOkList w cs = true := by
  by_cases h : t = "body" ∨ (w = true ∧ t = "worldbody") <;>
    simp [trmOk, h, Bool.and_eq_true]

theorem serializeOk_eta (e : Element) :
    serializeOk e =
      (e.attrib.all (fun p => p.2.isSome) && serializeOkList e.children) := by
  cases e; rfl

theorem trmOk_eta (w : Bool) (e : Element) :
    trmOk w e = true ↔
      ((e.tag = "body" ∨ (w = true ∧ e.tag = "worldbody")) →
        e.children.all geomHasTRM = true) ∧
      trmOkList w e.children = true := by
  cases e
  exact trmOk_mk_iff w _ _ _

mutual

theorem trmOk_mono : ∀ e : Element, trmOk true e = true → trmOk false e = true
  | .mk t a cs, h => by
    rw [trmOk_mk_iff] at h ⊢
    refine ⟨fun hcond => h.1 ?_, trmOkList_mono cs h.2⟩
    rcases hcond with h2 | h2
    · exact Or.inl h2
    · exact absurd h2.1 (by decide)

theorem trmOkList_mono : ∀ cs : List Element,
    trmOkList true cs = true → trmOkList false cs = true
  | [], _ => rfl
  | c :: cs, h => by
    simp only [trmOkList, Bool.and_eq_true] at h ⊢
    exact ⟨trmOk_mono c h.1, trmOkList_mono cs h.2⟩

end

theorem attribSet_all_isSome (a : List (String × Option String)) (k : String)
    (s : String) (ha : a.all (fun p => p.2.isSome) = true) :
    (attribSet a k (some s)).all (fun p => p.2.isSome) = true := by
  induction a with
  | nil => simp [attribSet]
  | cons p rest ih =>
    obtain ⟨k0, v0⟩ := p
    simp only [List.all_cons, Bool.and_eq_true] at ha
    by_cases h : k0 = k
    · simp [attribSet, h, ha.2]
    · simp only [attribSet, h, if_false, List.all_cons, Bool.and_eq_true]
      exact ⟨ha.1, ih ha.2⟩

theorem serializeOk_set (e : Element) (k s : String)
    (h : serializeOk e = true) : serializeOk (e.set k (some s)) = true := by
  cases e with
  | mk t a cs =>
    rw [serializeOk_mk_iff] at h
    show serializeOk (.mk t (attribSet a k (some s)) cs) = true
    rw [serializeOk_mk_iff]
    exact ⟨attribSet_all_isSome a k s h.1, h.2⟩

theorem all_isSome_filter (a : List (String × Option String))
    (q : String × Option String → Bool)
    (ha : a.all (fun p => p.2.isSome) = true) :
    (a.filter q).all (fun p => p.2.isSome) = true := by
  rw [List.all_eq_true] at ha ⊢
  intro p hp
  exact ha p (List.mem_of_mem_filter hp)

theorem truthy_isSome (o : Option String) (h : truthy o = true) : o.isSome = true := by
  cases o
  · simp [truthy] at h
  · rfl

theorem serializeOk_mkVisualDup (g : Element) (htag : g.tag = "geom")
    (h : geomHasTRM g = true) : serializeOk (mkVisualDup g) = true := by
  unfold geomHasTRM at h
  rw [if_pos htag] at h
  simp only [Bool.and_eq_true] at h
  show ((([("type", g.get "type"), ("rgba", g.get "rgba"), ("mesh", g.get "mesh")]
      ++ (if truthy (g.get "pos") then [("pos", g.get "pos")] else [])
      ++ (if truthy (g.get "quat") then [("quat", g.get "quat")] else [])
      ++ [("contype", some "0"), ("conaffinity", some "0"),
          ("group", some "1"), ("density", some "0")]).all
      (fun p => p.2.isSome)) && true) = true
  simp only [List.all_append, Bool.and_eq_true, Bool.and_true]
  refine ⟨⟨⟨?_, ?_⟩, ?_⟩, rfl⟩
  · simp [h.1.1, h.1.2, h.2]
  · cases hp : truthy (g.get "pos")
    · simp
    · simp [truthy_isSome _ hp]
  · cases hq : truthy (g.get "quat")
    · simp
    · simp [truthy_isSome _ hq]

theorem geomHasTRM_visit (c : Element) :
    geomHasTRM (visitElem c) = geomHasTRM c := by
  unfold geomHasTRM
  rw [visitElem_tag]
  by_cases h : c.tag = "geom" <;> simp [h, visitElem_get]

theorem serializeOkList_dupGeoms (cs : List Element)
    (hs : serializeOkList cs = true) (ht : cs.all geomHasTRM = true) :
    serializeOkList (dupGeoms cs) = true := by
  induction cs with
  | nil => rfl
  | cons c rest ih =>
    simp only [serializeOkList, Bool.and_eq_true] at hs
    simp only [List.all_cons, Bool.and_eq_true] at ht
    by_cases hc : c.tag = "geom"
    · simp only [dupGeoms, hc, if_true, serializeOkList, Bool.and_eq_true]
      exact ⟨serializeOk_set _ _ _ hs.1,
        serializeOk_mkVisualDup c hc ht.1, ih hs.2 ht.2⟩
    · simp only [dupGeoms, hc, if_false, serializeOkList, Bool.and_eq_true]
      exact ⟨hs.1, ih hs.2 ht.2⟩

mutual

theorem visit_serializeOk : ∀ e : Element, serializeOk e = true →
    trmOk false e = true → serializeOk (visitElem e) = true
  | .mk t a cs, hs, ht => by
    rw [serializeOk_mk_iff] at hs
    rw [trmOk_mk_iff] at ht
    have hlist := visit_serializeOkList cs hs.2 ht.2
    by_cases hb : t = "body"
    · have hall : cs.all geomHasTRM = true := ht.1 (Or.inl hb)
      have hall2 : (visitList cs).all geomHasTRM = true := by
        rw [List.all_eq_true] at hall ⊢
        intro x hx
        obtain ⟨c, hc, rfl⟩ := (mem_visitList _ _).mp hx
        rw [geomHasTRM_visit]
        exact hall c hc
      rw [show visitElem (.mk t a cs) = .mk t a (dupGeoms (visitList cs)) by
        simp [visitElem, hb]]
      rw [serializeOk_mk_iff]
      exact ⟨hs.1, serializeOkList_dupGeoms _ hlist hall2⟩
    · rw [show visitElem (.mk t a cs) = .mk t a (visitList cs) by
        simp [visitElem, hb]]
      rw [serializeOk_mk_iff]
      exact ⟨hs.1, hlist⟩

theorem visit_serializeOkList : ∀ cs : List Element, serializeOkList cs = true →
    trmOkList false cs = true → serializeOkList (visitList cs) = true
  | [], _, _ => rfl
  | c :: cs, hs, ht => by
    simp only [serializeOkList, trmOkList, Bool.and_eq_true] at hs ht
    simp only [visitList_cons, serializeOkList, Bool.and_eq_true]
    exact ⟨visit_serializeOk c hs.1 ht.1, visit_serializeOkList cs hs.2 ht.2⟩

end

theorem refAttrib_all_isSome (t : String) (a : List (String × Option String))
    (cs : List Element) (ha : a.all (fun p => p.2.isSome) = true) :
    (refAttrib t a cs).all (fun p => p.2.isSome) = true := by
  by_cases h : t = "joint"
  · rcases hn : (Element.mk t a cs).get "name" with _ | n
    · have heq : refAttrib t a cs = a := by
        unfold refAttrib
        rw [if_pos h, hn]
      rw [heq]
      exact ha
    · rcases hv : DEFAULT_STANDING.lookup n with _ | v
      · have heq : refAttrib t a cs = a := by
          unfold refAttrib
          rw [if_pos h, hn]
          show (match List.lookup n DEFAULT_STANDING with
            | none => a
            | some v => attribSet a "ref" (some (qs v))) = _
          rw [hv]
        rw [heq]
        exact ha
      · have heq : refAttrib t a cs = attribSet a "ref" (some (qs v)) := by
          unfold refAttrib
          rw [if_pos h, hn]
          show (match List.lookup n DEFAULT_STANDING with
            | none => a
            | some v2 => attribSet a "ref" (some (qs v2))) = _
          rw [hv]
        rw [heq]
        exact attribSet_all_isSome a "ref" (qs v) ha
  · have heq : refAttrib t a cs = a := by
      unfold refAttrib
      rw [if_neg h]
    rw [heq]
    exact ha

mutual

theorem ref_serializeOk : ∀ e : Element, serializeOk e = true →
    serializeOk (refElem e) = true
  | .mk t a cs, hs => by
    rw [serializeOk_mk_iff] at hs
    show serializeOk (.mk t (refAttrib t a cs) (refList cs)) = true
    rw [serializeOk_mk_iff]
    exact ⟨refAttrib_all_isSome t a cs hs.1, ref_serializeOkList cs hs.2⟩

theorem ref_serializeOkList : ∀ cs : List Element, serializeOkList cs = true →
    serializeOkList (refList cs) = true
  | [], _ => rfl
  | c :: cs, hs => by
    simp only [serializeOkList, Bool.and_eq_true] at hs
    simp only [refList, serializeOkList, Bool.and_eq_true]
    exact ⟨ref_serializeOk c hs.1, ref_serializeOkList cs hs.2⟩

end

theorem refElem_tag (c : Element) : (refElem c).tag = c.tag := by
  cases c; rfl

theorem geomHasTRM_ref (c : Element) :
    geomHasTRM (refElem c) = geomHasTRM c := by
  cases c with
  | mk t a cs =>
    have hre : refElem (Element.mk t a cs) =
        Element.mk t (refAttrib t a cs) (refList cs) := rfl
    unfold geomHasTRM
    rw [hre]
    simp only [Element.tag_mk]
    by_cases h : t = "geom"
    · have hattr : refAttrib t a cs = a := by
        unfold refAttrib
        rw [if_neg (by rw [h]; decide)]
      rw [hattr]
      simp [h, Element.get]
    · simp [h]

mutual

theorem ref_trmOk : ∀ e : Element, trmOk false e = true →
    trmOk false (refElem e) = true
  | .mk t a cs, ht => by
    rw [trmOk_mk_iff] at ht
    show trmOk false (.mk t (refAttrib t a cs) (refList cs)) = true
    rw [trmOk_mk_iff]
    constructor
    · intro hcond
      have hall := ht.1 hcond
      rw [List.all_eq_true] at hall ⊢
      intro x hx
      have : ∃ c ∈ cs, x = refElem c := by
        clear hall hcond ht
        induction cs with
        | nil => simp [refList] at hx
        | cons c2 rest ih =>
          rcases List.mem_cons.mp hx with h | h
          · exact ⟨c2, List.mem_cons_self _ _, h⟩
          · obtain ⟨c3, hc3, hx3⟩ := ih h
            exact ⟨c3, List.mem_cons_of_mem _ hc3, hx3⟩
      obtain ⟨c2, hc2, rfl⟩ := this
      rw [geomHasTRM_ref]
      exact hall c2 hc2
    · exact ref_trmOkList cs ht.2

theorem ref_trmOkList : ∀ cs : List Element, trmOkList false cs = true →
    trmOkList false (refList cs) = true
  | [], _ => rfl
  | c :: cs, ht => by
    simp only [trmOkList, Bool.and_eq_true] at ht
    simp only [refList, trmOkList, Bool.and_eq_true]
    exact ⟨ref_trmOk c ht.1, ref_trmOkList cs ht.2⟩

end

theorem stripFrcKids_serializeOk (cs : List Element)
    (hs : serializeOkList cs = true) :
    serializeOkList (stripFrcKids cs) = true := by
  rw [serializeOkList_iff] at hs ⊢
  intro x hx
  unfold stripFrcKids at hx
  obtain ⟨c, hc, hxc⟩ := List.mem_map.mp hx
  by_cases h : c.tag = "joint"
  · rw [if_pos h] at hxc
    subst hxc
    have := hs c hc
    rw [serializeOk_eta] at this ⊢
    simp only [Element.attrib_mk, Element.children_mk, Bool.and_eq_true] at this ⊢
    exact ⟨all_isSome_filter _ _ this.1, this.2⟩
  · rw [if_neg h] at hxc
    subst hxc
    exact hs c hc

mutual

theorem frc_serializeOk : ∀ e : Element, serializeOk e = true →
    serializeOk (frcElem e) = true
  | .mk t a cs, hs => by
    rw [serializeOk_mk_iff] at hs
    have hlist := frc_serializeOkList cs hs.2
    by_cases hb : t = "body"
    · rw [show frcElem (.mk t a cs) = .mk t a (stripFrcKids (frcList cs)) by
        simp [frcElem, hb]]
      rw [serializeOk_mk_iff]
      exact ⟨hs.1, stripFrcKids_serializeOk _ hlist⟩
    · rw [show frcElem (.mk t a cs) = .mk t a (frcList cs) by
        simp [frcElem, hb]]
      rw [serializeOk_mk_iff]
      exact ⟨hs.1, hlist⟩

theorem frc_serializeOkList : ∀ cs : List Element, serializeOkList cs = true →
    serializeOkList (frcList cs) = true
  | [], _ => rfl
  | c :: cs, hs => by
    simp only [serializeOkList, Bool.and_eq_true] at hs
    simp only [frcList, serializeOkList, Bool.and_eq_true]
    exact ⟨frc_serializeOk c hs.1, frc_serializeOkList cs hs.2⟩

end

theorem adaptWorld_eq_floor_gen (ar rf : Bool) (root a0 wb : Element)
    (hfa : root.findDirect "asset" = some a0)
    (hfw : List.find? (fun c => c.tag == "worldbody")
      (assetStepList root.children) = some wb) :
    adaptWorld true ar rf root =
      some (Element.mk root.tag root.attrib
        (if rf then
          frcList (visitList (if ar then
            refList (surgeryList true wb (assetStepList root.children))
            else surgeryList true wb (assetStepList root.children)))
         else
          visitList (if ar then
            refList (surgeryList true wb (assetStepList root.children))
            else surgeryList true wb (assetStepList root.children)))) := by
  have h2 : (Element.mk root.tag root.attrib
      (mapFirst (fun c => c.tag == "asset")
        (fun asset => appendKids asset [texplaneEl, matplaneEl, visualgeomMatEl])
        root.children)).findDirect "worldbody" = some wb := hfw
  simp only [adaptWorld, eq_self_iff_true, if_true, hfa, h2]
  cases ar <;> cases rf <;> rfl

theorem adaptWorld_eq_nofloor_gen (ar rf : Bool) (root wb : Element)
    (hfw : List.find? (fun c => c.tag == "worldbody") root.children = some wb) :
    adaptWorld false ar rf root =
      some (Element.mk root.tag root.attrib
        (if rf then
          frcList (visitList (if ar then
            refList (surgeryList false wb root.children)
            else surgeryList false wb root.children))
         else
          visitList (if ar then
            refList (surgeryList false wb root.children)
            else surgeryList false wb root.children))) := by
  have hfd : root.findDirect "worldbody" = some wb := hfw
  simp only [adaptWorld, Bool.false_eq_true, if_false, hfd]
  cases ar <;> cases rf <;> rfl

theorem adaptWorld_success_gen (af ar rf : Bool) (root out : Element)
    (hrun : adaptWorld af ar rf root = some out) :
    ∃ wb l, List.find? (fun c => c.tag == "worldbody") l = some wb ∧
      (l = root.children ∨ l = assetStepList root.children) ∧
      out = Element.mk root.tag root.attrib
        (if rf then
          frcList (visitList (if ar then refList (surgeryList af wb l)
            else surgeryList af wb l))
         else
          visitList (if ar then refList (surgeryList af wb l)
            else surgeryList af wb l)) := by
  cases af with
  | false =>
    rcases hfw : root.findDirect "worldbody" with _ | wb
    · rw [show adaptWorld false ar rf root = none by
        cases ar <;> cases rf <;> simp [adaptWorld, hfw]] at hrun
      exact absurd hrun (by simp)
    · rw [adaptWorld_eq_nofloor_gen ar rf root wb hfw] at hrun
      exact ⟨wb, root.children, hfw, Or.inl rfl,
        (Option.some_injective _ hrun).symm⟩
  | true =>
    rcases hfa : root.findDirect "asset" with _ | a0
    · rw [show adaptWorld true ar rf root = none by
        cases ar <;> cases rf <;> simp [adaptWorld, hfa]] at hrun
      exact absurd hrun (by simp)
    · rcases hfw : List.find? (fun c => c.tag == "worldbody")
          (assetStepList root.children) with _ | wb
      · have hnone : adaptWorld true ar rf root = none := by
          have h2 : (Element.mk root.tag root.attrib
              (mapFirst (fun c => c.tag == "asset")
                (fun asset => appendKids asset
                  [texplaneEl, matplaneEl, visualgeomMatEl])
                root.children)).findDirect "worldbody" = none := hfw
          simp only [adaptWorld, eq_self_iff_true, if_true, hfa, h2]
        rw [hnone] at hrun
        exact absurd hrun (by simp)
      · rw [adaptWorld_eq_floor_gen ar rf root a0 wb hfa hfw] at hrun
        exact ⟨wb, assetStepList root.children, hfw, Or.inr rfl,
          (Option.some_injective _ hrun).symm⟩

theorem mem_mapFirst_strong (p : Element → Bool) (f : Element → Element)
    (l : List Element) (y : Element) (hy : y ∈ mapFirst p f l) :
    y ∈ l ∨ ∃ x ∈ l, p x = true ∧ y = f x := by
  induction l with
  | nil => simp [mapFirst] at hy
  | cons c cs ih =>
    by_cases hc : p c
    · simp only [mapFirst, hc, if_true] at hy
      rcases List.mem_cons.mp hy with h | h
      · exact Or.inr ⟨c, List.mem_cons_self c cs, hc, h⟩
      · exact Or.inl (List.mem_cons_of_mem c h)
    · have hb : p c = false := by simpa using hc
      simp only [mapFirst, hb, Bool.false_eq_true, if_false] at hy
      rcases List.mem_cons.mp hy with h | h
      · exact Or.inl (h ▸ List.mem_cons_self c cs)
      · rcases ih h with h2 | ⟨x, hx, hpx, hfx⟩
        · exact Or.inl (List.mem_cons_of_mem c h2)
        · exact Or.inr ⟨x, List.mem_cons_of_mem c hx, hpx, hfx⟩

theorem mem_insertPy_cases (n : ℕ) (x y : Element) (l : List Element)
    (hy : y ∈ insertPy n x l) : y = x ∨ y ∈ l := by
  unfold insertPy at hy
  rcases List.mem_append.mp hy with h | h
  · exact Or.inr (List.mem_of_mem_take h)
  · rcases List.mem_cons.mp h with h2 | h2
    · exact Or.inl h2
    · exact Or.inr (List.mem_of_mem_drop h2)

theorem serializeOkList_append (l1 l2 : List Element) :
    serializeOkList (l1 ++ l2) = (serializeOkList l1 && serializeOkList l2) := by
  induction l1 with
  | nil => simp [serializeOkList]
  | cons c cs ih => simp [serializeOkList, ih, Bool.and_assoc]

theorem trmOkList_append (w : Bool) (l1 l2 : List Element) :
    trmOkList w (l1 ++ l2) = (trmOkList w l1 && trmOkList w l2) := by
  induction l1 with
  | nil => simp [trmOkList]
  | cons c cs ih => simp [trmOkList, ih, Bool.and_assoc]

theorem serializeOk_newWb (af : Bool) (wb : Element) (x : Element)
    (hxa : x.attrib.all (fun p => p.2.isSome) = true)
    (hwbS : serializeOk wb = true) :
    serializeOk (Element.mk x.tag x.attrib (wbReplaceKids af wb)) = true := by
  rw [serializeOk_mk_iff]
  refine ⟨hxa, ?_⟩
  have hwbkids : serializeOkList wb.children = true := by
    rw [serializeOk_eta, Bool.and_eq_true] at hwbS
    exact hwbS.2
  unfold wbReplaceKids
  rw [serializeOkList_append, Bool.and_eq_true]
  constructor
  · cases af <;> rfl
  · show serializeOkList [light4, light5, appendKids rootBodyBase wb.children] = true
    show (serializeOk light4 && (serializeOk light5 &&
      (serializeOk (appendKids rootBodyBase wb.children) && true))) = true
    simp only [Bool.and_eq_true, Bool.and_true]
    refine ⟨rfl, rfl, ?_⟩
    rw [serializeOk_eta, Bool.and_eq_true, appendKids_attrib, appendKids_children]
    refine ⟨rfl, ?_⟩
    show serializeOkList ([mkSlideJoint "root_x" 1 0 0, mkSlideJoint "root_y" 0 1 0,
      mkSlideJoint "root_z" 0 0 1, mkBallJoint "root_ball", imuSite]
      ++ wb.children) = true
    rw [serializeOkList_append, Bool.and_eq_true]
    exact ⟨rfl, hwbkids⟩

theorem trmOk_newWb (af : Bool) (wb : Element) (x : Element)
    (hxtag : x.tag = "worldbody")
    (hwbT : trmOk false wb = true)
    (hwbtrm : wb.children.all geomHasTRM = true) :
    trmOk false (Element.mk x.tag x.attrib (wbReplaceKids af wb)) = true := by
  rw [trmOk_mk_iff]
  constructor
  · intro hcond
    rcases hcond with h | h
    · rw [hxtag] at h
      exact absurd h (by decide)
    · exact absurd h.1 (by decide)
  · have hwbkidsT : trmOkList false wb.children = true := by
      rw [trmOk_eta] at hwbT
      exact hwbT.2
    unfold wbReplaceKids
    rw [trmOkList_append, Bool.and_eq_true]
    constructor
    · cases af <;> rfl
    · show (trmOk false light4 && (trmOk false light5 &&
        (trmOk false (appendKids rootBodyBase wb.children) && true))) = true
      simp only [Bool.and_eq_true, Bool.and_true]
      refine ⟨rfl, rfl, ?_⟩
      show trmOk false (Element.mk "body" rootBodyBase.attrib
        ([mkSlideJoint "root_x" 1 0 0, mkSlideJoint "root_y" 0 1 0,
          mkSlideJoint "root_z" 0 0 1, mkBallJoint "root_ball", imuSite]
          ++ wb.children)) = true
      rw [trmOk_mk_iff]
      constructor
      · intro _
        rw [List.all_append, Bool.and_eq_true]
        exact ⟨rfl, hwbtrm⟩
      · rw [trmOkList_append, Bool.and_eq_true]
        exact ⟨rfl, hwbkidsT⟩

theorem surgery_preserved (af : Bool) (wb : Element) (l : List Element)
    (hs : serializeOkList l = true) (ht : trmOkList false l = true)
    (hwb : wb ∈ l)
    (hwbtrm : wb.children.all geomHasTRM = true) :
    serializeOkList (surgeryList af wb l) = true ∧
    trmOkList false (surgeryList af wb l) = true := by
  have hwbS : serializeOk wb = true := (serializeOkList_iff l).mp hs wb hwb
  have hwbT : trmOk false wb = true := (trmOkList_iff false l).mp ht wb hwb
  have hsl : ∀ c ∈ l, serializeOk c = true := (serializeOkList_iff l).mp hs
  have htl : ∀ c ∈ l, trmOk false c = true := (trmOkList_iff false l).mp ht
  -- after the worldbody replacement
  have step1 : ∀ c ∈ mapFirst (fun c => c.tag == "worldbody")
      (fun w => Element.mk w.tag w.attrib (wbReplaceKids af wb)) l,
      serializeOk c = true ∧ trmOk false c = true := by
    intro c hc
    rcases mem_mapFirst_strong _ _ _ _ hc with h | ⟨x, hx, hpx, hfx⟩
    · exact ⟨hsl c h, htl c h⟩
    · subst hfx
      have hxa : x.attrib.all (fun p => p.2.isSome) = true := by
        have := hsl x hx
        rw [serializeOk_eta, Bool.and_eq_true] at this
        exact this.1
      exact ⟨serializeOk_newWb af wb x hxa hwbS,
        trmOk_newWb af wb x (beq_tag_eq x "worldbody" hpx) hwbT hwbtrm⟩
  -- plus actuator and sensor sections
  have step2 : ∀ c ∈ mapFirst (fun c => c.tag == "worldbody")
      (fun w => Element.mk w.tag w.attrib (wbReplaceKids af wb)) l
      ++ [actuatorSection, sensorSection],
      serializeOk c = true ∧ trmOk false c = true := by
    intro c hc
    rcases List.mem_append.mp hc with h | h
    · exact step1 c h
    · rcases List.mem_cons.mp h with h2 | h2
      · subst h2; exact ⟨rfl, rfl⟩
      · rcases List.mem_cons.mp h2 with h3 | h3
        · subst h3; exact ⟨rfl, rfl⟩
        · simp at h3
  -- after the sensor append
  have step3 : ∀ c ∈ mapFirst (fun c => c.tag == "sensor")
      (fun s => appendKids s [framequatEl, gyroEl])
      (mapFirst (fun c => c.tag == "worldbody")
        (fun w => Element.mk w.tag w.attrib (wbReplaceKids af wb)) l
        ++ [actuatorSection, sensorSection]),
      serializeOk c = true ∧ trmOk false c = true := by
    intro c hc
    rcases mem_mapFirst_strong _ _ _ _ hc with h | ⟨x, hx, hpx, hfx⟩
    · exact step2 c h
    · subst hfx
      obtain ⟨hxS, hxT⟩ := step2 x hx
      constructor
      · rw [serializeOk_eta, Bool.and_eq_true, appendKids_attrib,
          appendKids_children]
        rw [serializeOk_eta, Bool.and_eq_true] at hxS
        refine ⟨hxS.1, ?_⟩
        rw [serializeOkList_append, Bool.and_eq_true]
        exact ⟨hxS.2, rfl⟩
      · rw [trmOk_eta] at hxT ⊢
        rw [appendKids_tag, appendKids_children]
        constructor
        · intro hcond
          rcases hcond with h2 | h2
          · rw [beq_tag_eq x "sensor" hpx] at h2
            exact absurd h2 (by decide)
          · exact absurd h2.1 (by decide)
        · rw [trmOkList_append, Bool.and_eq_true]
          exact ⟨hxT.2, rfl⟩
  -- the two inserts
  constructor
  · rw [serializeOkList_iff]
    intro c hc
    unfold surgeryList at hc
    rcases mem_insertPy_cases _ _ _ _ hc with h | h
    · subst h; rfl
    · rcases mem_insertPy_cases _ _ _ _ h with h2 | h2
      · subst h2; rfl
      · exact (step3 c h2).1
  · rw [trmOkList_iff]
    intro c hc
    unfold surgeryList at hc
    rcases mem_insertPy_cases _ _ _ _ hc with h | h
    · subst h; rfl
    · rcases mem_insertPy_cases _ _ _ _ h with h2 | h2
      · subst h2; rfl
      · exact (step3 c h2).2

/-- C2 counterexample: `c2Tree` is a well-formed input (every attribute
a string), but its body geom has no `rgba` and no `mesh` attribute, so
the visual duplicate created by `adapt_world` stores Python `None` for
both and the resulting tree no longer serializes: `save` would raise.
This refutes the claim that adapt_world always produces a tree all of
whose attribute values are strings. -/
theorem C2_counterexample :
    serializeOk c2Tree = true ∧
    (adaptWorld true false false c2Tree).map serializeOk = some false := by
  exact ⟨rfl, rfl⟩

/-- C2 (amended): for input trees all of whose attribute values are
strings AND in which every geom child of a body element — and of the
worldbody, since those geoms are moved under the new root body — carries
`type`, `rgba` and `mesh` attributes, the tree produced by `adapt_world`
(with any flag combination) again has a string value for every
attribute, so `save` serializes it without error. -/
theorem C2_amended_serialize (af ar rf : Bool) (root out : Element)
    (hser : serializeOk root = true) (htrm : trmOk true root = true)
    (hrun : adaptWorld af ar rf root = some out) :
    serializeOk out = true := by
  obtain ⟨wb, l, hfw, hl, hout⟩ := adaptWorld_success_gen af ar rf root out hrun
  rw [serializeOk_eta, Bool.and_eq_true] at hser
  rw [trmOk_eta] at htrm
  have hsl : serializeOkList l = true := by
    rcases hl with rfl | rfl
    · exact hser.2
    · rw [serializeOkList_iff]
      intro c hc
      unfold assetStepList at hc
      rcases mem_mapFirst_strong _ _ _ _ hc with h | ⟨x, hx, hpx, hfx⟩
      · exact (serializeOkList_iff _).mp hser.2 c h
      · subst hfx
        have hxok := (serializeOkList_iff _).mp hser.2 x hx
        rw [serializeOk_eta, Bool.and_eq_true] at hxok
        rw [serializeOk_eta, Bool.and_eq_true, appendKids_attrib,
          appendKids_children]
        refine ⟨hxok.1, ?_⟩
        rw [serializeOkList_append, Bool.and_eq_true]
        exact ⟨hxok.2, rfl⟩
  have htlTrue : trmOkList true root.children = true := htrm.2
  have htlFalse0 : trmOkList false root.children = true := trmOkList_mono _ htlTrue
  have htl : trmOkList false l = true := by
    rcases hl with rfl | rfl
    · exact htlFalse0
    · rw [trmOkList_iff]
      intro c hc
      unfold assetStepList at hc
      rcases mem_mapFirst_strong _ _ _ _ hc with h | ⟨x, hx, hpx, hfx⟩
      · exact (trmOkList_iff _ _).mp htlFalse0 c h
      · subst hfx
        have hxok := (trmOkList_iff _ _).mp htlFalse0 x hx
        rw [trmOk_eta] at hxok ⊢
        rw [appendKids_tag, appendKids_children]
        constructor
        · intro hcond
          rcases hcond with h2 | h2
          · rw [beq_tag_eq x "asset" hpx] at h2
            exact absurd h2 (by decide)
          · exact absurd h2.1 (by decide)
        · rw [trmOkList_append, Bool.and_eq_true]
          exact ⟨hxok.2, rfl⟩
  have hwbmem : wb ∈ l := List.mem_of_find?_eq_some hfw
  have hwbtag : wb.tag = "worldbody" :=
    beq_tag_eq _ _ (by simpa using List.find?_some hfw)
  have hwbmem0 : wb ∈ root.children := by
    rcases hl with rfl | rfl
    · exact hwbmem
    · unfold assetStepList at hwbmem
      rcases mem_mapFirst_strong _ _ _ _ hwbmem with h | ⟨x, hx, hpx, hfx⟩
      · exact h
      · exfalso
        have h2 : wb.tag = x.tag := by rw [hfx, appendKids_tag]
        rw [hwbtag, beq_tag_eq x "asset" hpx] at h2
        exact absurd h2 (by decide)
  have hwbtrm : wb.children.all geomHasTRM = true := by
    have h2 := (trmOkList_iff true root.children).mp htlTrue wb hwbmem0
    rw [trmOk_eta] at h2
    exact h2.1 (Or.inr ⟨rfl, hwbtag⟩)
  obtain ⟨hsS, hsT⟩ := surgery_preserved af wb l hsl htl hwbmem hwbtrm
  have hAfterRef : serializeOkList
        (if ar then refList (surgeryList af wb l) else surgeryList af wb l) = true ∧
      trmOkList false
        (if ar then refList (surgeryList af wb l) else surgeryList af wb l) = true := by
    cases ar
    · exact ⟨hsS, hsT⟩
    · exact ⟨ref_serializeOkList _ hsS, ref_trmOkList _ hsT⟩
  have hVisit : serializeOkList (visitList
      (if ar then refList (surgeryList af wb l) else surgeryList af wb l)) = true :=
    visit_serializeOkList _ hAfterRef.1 hAfterRef.2
  rw [hout, serializeOk_mk_iff]
  refine ⟨hser.1, ?_⟩
  cases rf
  · exact hVisit
  · exact frc_serializeOkList _ hVisit

/-- Witness for C1 at a concrete one-entry reward dictionary. -/
theorem C1_witness :
    (get_reward_fn [("rew_ctrl_cost", ⟨1, none, none⟩)] 1 true
        ⟨[], []⟩ [2] ⟨[], []⟩).map (fun t => t.1) =
      .ok ((([("rew_ctrl_cost", (⟨1, none, none⟩ : RewardDict))] : RewardParams).map
        (dispatchFst ⟨[], []⟩ [2] ⟨[], []⟩ 1)).sum) := by
  obtain ⟨h, bd, heq⟩ := C1_reward_is_sum [("rew_ctrl_cost", ⟨1, none, none⟩)] 1 true
    ⟨[], []⟩ [2] ⟨[], []⟩
    (by
      intro kp hkp
      rw [List.mem_singleton] at hkp
      subst hkp
      refine ⟨(-4, 1), ?_⟩
      simp [dispatch, reward_functions, ctrl_cost_reward_fn, List.lookup]
      norm_num)
  rw [heq]
  rfl

/-- Witness for C6 at concrete equal inputs. -/
theorem C6_witness :
    get_reward_fn [("rew_forward", ⟨1, none, none⟩)] 1 true ⟨[], []⟩ [] ⟨[], []⟩ =
      get_reward_fn [("rew_forward", ⟨1, none, none⟩)] 1 true ⟨[], []⟩ [] ⟨[], []⟩ :=
  C6_deterministic [("rew_forward", ⟨1, none, none⟩)] 1 true
    ⟨[], []⟩ ⟨[], []⟩ [] [] ⟨[], []⟩ ⟨[], []⟩ rfl rfl rfl

/-- Witness for C8 at a reward dictionary with an unregistered key. -/
theorem C8_witness :
    ∃ k2, get_reward_fn [("bogus", ⟨1, none, none⟩)] 1 true ⟨[], []⟩ [] ⟨[], []⟩ =
      .error (.keyError k2) :=
  C8_missing_key_error [("bogus", ⟨1, none, none⟩)] 1 true ⟨[], []⟩ [] ⟨[], []⟩
    "bogus" (by simp) rfl

/-- Witness for C9 at q[2] = 1.5 with bounds [1, 2]. -/
theorem C9_witness :
    healthy_reward_fn ⟨[0, 0, 1.5], []⟩ [] ⟨[], []⟩ 1 ⟨5, some 1, some 2⟩ =
      .ok (5 * (if (1 : ℚ) ≤ (⟨[0, 0, 1.5], []⟩ : MjxState).q.getD 2 0 ∧
            (⟨[0, 0, 1.5], []⟩ : MjxState).q.getD 2 0 ≤ 2 then 1 else 0),
        if (1 : ℚ) ≤ (⟨[0, 0, 1.5], []⟩ : MjxState).q.getD 2 0 ∧
            (⟨[0, 0, 1.5], []⟩ : MjxState).q.getD 2 0 ≤ 2 then 1 else 0) :=
  (C9_healthy_bounds ⟨[0, 0, 1.5], []⟩ [] ⟨[], []⟩ 1 ⟨5, some 1, some 2⟩ 1 2 rfl rfl).1

/-- Witness for C10 at a concrete one-entry reward dictionary. -/
theorem C10_witness :
    [("rew_ctrl_cost", (-1 : ℚ))] =
      ([("rew_ctrl_cost", (⟨1, none, none⟩ : RewardDict))] : RewardParams).map
        (fun kp => (kp.1, dispatchFst ⟨[], []⟩ [1] ⟨[], []⟩ 1 kp)) ∧
    get_reward_fn [("rew_ctrl_cost", ⟨1, none, none⟩)] 1 false ⟨[], []⟩ [1] ⟨[], []⟩ =
      .ok (-1, 1, []) := by
  have hrun : get_reward_fn [("rew_ctrl_cost", ⟨1, none, none⟩)] 1 true
      ⟨[], []⟩ [1] ⟨[], []⟩ = .ok (-1, 1, [("rew_ctrl_cost", -1)]) := by
    simp [get_reward_fn, rewardLoop, dispatch, reward_functions,
      ctrl_cost_reward_fn, List.lookup]
  have h := (C10_breakdown_toggle [("rew_ctrl_cost", ⟨1, none, none⟩)] 1
    ⟨[], []⟩ [1] ⟨[], []⟩).1 (-1) 1 [("rew_ctrl_cost", -1)] hrun
  exact ⟨h.1, h.2⟩

/-- Witness for C2 (amended) on the sample tree. -/
theorem C2_witness :
    serializeOk wTree = true ∧ trmOk true wTree = true ∧ serializeOk wOut = true :=
  ⟨rfl, rfl, C2_amended_serialize true false false wTree wOut rfl rfl rfl⟩

/-- Witness for C3 (amended) on the sample tree and its body. -/
theorem C3_witness :
    (visitElem wBody ∈ subElems wOut ∧ (visitElem wBody).tag = "body") := by
  have hb : wBody ∈ subElemsList wTree.children := by
    show wBody ∈ subElems (Element.mk "asset" [] []) ++
      (subElems (Element.mk "worldbody" [] [wBody]) ++ [])
    refine List.mem_append.mpr (Or.inr (List.mem_append.mpr (Or.inl ?_)))
    show wBody ∈ (Element.mk "worldbody" [] [wBody]) :: subElemsList [wBody]
    refine List.mem_cons_of_mem _ ?_
    show wBody ∈ subElems wBody ++ []
    exact List.mem_append.mpr (Or.inl (self_mem_subElems wBody))
  have h := C3_amended_visual_geoms true wTree wOut wBody rfl hb rfl
  exact ⟨h.1, h.2.1⟩

/-- Witness for C4 on the sample tree. -/
theorem C4_witness :
    ∃ wb2 rb, wOut.findDirect "worldbody" = some wb2 ∧ rb ∈ wb2.children ∧
      rb.tag = "body" ∧ rb.get "name" = some "root" ∧
      rb.children.filter
          (fun c => c.tag == "joint" && (c.get "type" == some "slide"))
        = [mkSlideJoint "root_x" 1 0 0, mkSlideJoint "root_y" 0 1 0,
           mkSlideJoint "root_z" 0 0 1] := by
  obtain ⟨wb2, rb, h1, h2, h3, h4, _, _, _, hslide, _⟩ :=
    C4_root_body true wTree wOut (Element.mk "worldbody" [] [wBody]) rfl rfl
      (by decide)
  exact ⟨wb2, rb, h1, h2, h3, h4, hslide⟩

/-- Witness for C5 on the sample tree. -/
theorem C5_witness :
    ∃ act sens, wOut.findDirect "actuator" = some act ∧
      wOut.findDirect "sensor" = some sens ∧
      mkMotor "torso roll" ∈ act.children ∧
      mkActuatorpos "torso roll" ∈ sens.children := by
  obtain ⟨act, sens, h1, h2, _, h4, _⟩ :=
    C5_motors_sensors true wTree wOut rfl (by decide) (by decide)
  obtain ⟨hm, _, _, _, _, _, hp, _⟩ := h4 "torso roll" (by decide)
  exact ⟨act, sens, h1, h2, hm, hp⟩

/-- Witness for C7 on the sample tree. -/
theorem C7_witness :
    ∃ wb2 rb, wOut.findDirect "worldbody" = some wb2 ∧
      wb2.children = [groundGeom, light4, light5, rb] ∧
      wb2.children.head? = some groundGeom := by
  obtain ⟨wb2, rb, h1, h2, hrest⟩ := C7_lights_floor true wTree wOut rfl
  refine ⟨wb2, rb, h1, by simpa using h2, ?_⟩
  rw [h2]
  simp

end KSim
